import Mathlib

/-!
# branch-clean: a verification development

A shallow embedding of the core of `onamfc/branch-clean` (Go): the protection
matcher (`isProtected`, `internal/git.go`), the branch classifier
(`GitRepo.ListBranches`, `GitRepo.isMerged`), the guarded deletion
(`GitRepo.DeleteBranch`), the filter engine (`FilterBranches`,
`internal/ui.go`), the interactive selection (`SelectBranches`), and the
command `runCleanup` with the exit status that `main` derives from its error
(`main.go`).

Conventions of the embedding.

* A Go `string` is a sequence of bytes: `GoString := List Nat`, each element a
  byte value `0 .. 255`.  Every function below is total on `List Nat`, and
  agrees with the Go code on sequences of bytes.
* A Go slice is a `List`; the `nil` slice and the empty slice are both `[]`
  (the Go code only ever takes `len` of, ranges over, or appends to them).
* A Go `error` is an `Option GoError` (`none` is `nil`), and a function
  returning `(T, error)` returns a pair, so that a value returned next to a
  non-nil error stays visible.
* `time.Time` is an instant on a totally ordered time line (`Int`).
* The collaborators that the code consumes (go-git storage, the `git`
  command line) are fields of a structure `Collaborators σ` acting on an
  abstract world `σ`.
* A prompt is answered from the recorded results of its calls of
  `prompt.Run()`; a function that waits for an answer that is not recorded
  returns `none`.
-/

namespace BranchClean

/-! ## Data model -/

/-- A Go string: its bytes. -/
abbrev GoString := List Nat

/-- An instant (`time.Time`), on a totally ordered time line. -/
abbrev Time := Int

/-- UTF-8 encoding of one code point, used to write string literals. -/
def utf8Bytes (c : Nat) : List Nat :=
  if c < 0x80 then [c]
  else if c < 0x800 then [0xC0 + c / 0x40, 0x80 + c % 0x40]
  else if c < 0x10000 then [0xE0 + c / 0x1000, 0x80 + c / 0x40 % 0x40, 0x80 + c % 0x40]
  else [0xF0 + c / 0x40000, 0x80 + c / 0x1000 % 0x40, 0x80 + c / 0x40 % 0x40, 0x80 + c % 0x40]

/-- The Go string written as the literal `s`. -/
def str (s : String) : GoString :=
  s.toList.flatMap (fun c => utf8Bytes c.toNat)

/-- The record `Branch` of `internal/git.go`. -/
structure Branch where
  Name : GoString
  IsMerged : Bool
  IsStale : Bool
  LastCommit : Time
  Protected : Bool
deriving DecidableEq, Repr

/-! ## Filter engine (`internal/ui.go`) -/

/-- One iteration of the loop body of `FilterBranches`: `filtered` is the
slice built so far, `b` the branch visited. -/
def FilterBranches.body (mergedOnly staleOnly : Bool) (filtered : List Branch) (b : Branch) :
    List Branch :=
  if b.Protected then filtered
  else if mergedOnly && staleOnly then
    if b.IsMerged && b.IsStale then filtered ++ [b] else filtered
  else if mergedOnly then
    if b.IsMerged then filtered ++ [b] else filtered
  else if staleOnly then
    if b.IsStale then filtered ++ [b] else filtered
  else
    if b.IsMerged || b.IsStale then filtered ++ [b] else filtered

/-- The function `FilterBranches` of `internal/ui.go`: a `for ... range` loop
that appends to `filtered`, which starts as the `nil` slice. -/
def FilterBranches (branches : List Branch) (mergedOnly staleOnly : Bool) : List Branch :=
  branches.foldl (FilterBranches.body mergedOnly staleOnly) []

/-- The condition under which the loop body of `FilterBranches` appends. -/
def FilterBranches.keeps (mergedOnly staleOnly : Bool) (b : Branch) : Bool :=
  !b.Protected &&
    (if mergedOnly && staleOnly then b.IsMerged && b.IsStale
     else if mergedOnly then b.IsMerged
     else if staleOnly then b.IsStale
     else b.IsMerged || b.IsStale)

/-! ## Errors -/

/-- Go error values.  The sentinels are the package-level `errors.New` values
of the repository (`ErrProtectedBranch`, `ErrCurrentBranch`, `ErrDefaultBranch`
in `internal/git.go`, `ErrCancelled` in `internal/ui.go`) and
`filepath.ErrBadPattern`; `ExitError code` is an `*exec.ExitError` whose
`ExitCode()` is `code`; `external` is any other error produced by a
collaborator;
`New` is a fresh error carrying only a text (`fmt.Errorf` without `%w`);
`Errorf` is `fmt.Errorf` with one `%w` verb, wrapping `wrapped` (the argument
values other than the wrapped error are kept in `args`);
`ProtectedBranchError` is a `*ProtectedBranchError` of `internal/git.go`. -/
inductive GoError where
  | ErrProtectedBranch
  | ErrCurrentBranch
  | ErrDefaultBranch
  | ErrCancelled
  | ErrBadPattern
  | ExitError (code : Int)
  | external (msg : String)
  | New (msg : String)
  | Errorf (format : String) (wrapped : GoError) (args : List (List Nat))
  | ProtectedBranchError (BranchName : List Nat)
deriving DecidableEq, Repr

/-- The function `errors.Is(err, target)` for a sentinel `target`: walks the
chain of wrapped errors of `err` looking for `target`; on a
`*ProtectedBranchError` it asks the method `Is`, which answers
`target == ErrProtectedBranch`. -/
def errorsIs : GoError → GoError → Bool
  | .Errorf f w a, target =>
    if GoError.Errorf f w a = target then true else errorsIs w target
  | .ProtectedBranchError n, target =>
    decide (GoError.ProtectedBranchError n = target) || decide (target = .ErrProtectedBranch)
  | e, target => e = target

/-- The function `errors.As(err, &protectedErr)` with `protectedErr` of type
`*ProtectedBranchError`: whether the chain of wrapped errors of `err` holds an
error of that type. -/
def errorsAsProtectedBranchError : GoError → Bool
  | .Errorf _ w _ => errorsAsProtectedBranchError w
  | .ProtectedBranchError _ => true
  | _ => false

/-! ## Protection matcher (`internal/git.go`) and `path/filepath.Match`

`isProtected` calls `filepath.Match` of the Go standard library, which is not
part of the repository.  It is transcribed here from
`path/filepath/match.go` and `unicode/utf8` (non-Windows build: the separator
is `/` and the backslash escapes).  Bytes used below: `*` 42, `-` 45, `/` 47,
`?` 63, `[` 91, `\` 92, `]` 93, `^` 94. -/

/-- The constant `utf8.RuneError`. -/
def RuneError : Nat := 0xFFFD

/-- The table `first` of `unicode/utf8`: `as = 0xF0` for ASCII, `xx = 0xF1`
for an invalid first byte, otherwise the size in the low bits and the index of
the accept range in the high bits. -/
def utf8First (b : Nat) : Nat :=
  if b < 0x80 then 0xF0
  else if b < 0xC2 then 0xF1
  else if b < 0xE0 then 0x02
  else if b = 0xE0 then 0x13
  else if b < 0xED then 0x03
  else if b = 0xED then 0x23
  else if b < 0xF0 then 0x03
  else if b = 0xF0 then 0x34
  else if b < 0xF4 then 0x04
  else if b = 0xF4 then 0x44
  else 0xF1

/-- The table `acceptRanges` of `unicode/utf8`: bounds `(lo, hi)` on the
second byte. -/
def acceptRanges (i : Nat) : Nat × Nat :=
  if i = 1 then (0xA0, 0xBF)
  else if i = 2 then (0x80, 0x9F)
  else if i = 3 then (0x90, 0xBF)
  else if i = 4 then (0x80, 0x8F)
  else (0x80, 0xBF)

/-- The function `utf8.DecodeRuneInString`: the first rune of `s` and its
width in bytes; `(RuneError, 0)` on the empty string and `(RuneError, 1)` on
an invalid encoding. -/
def DecodeRuneInString (s : GoString) : Nat × Nat :=
  match s with
  | [] => (RuneError, 0)
  | s0 :: _ =>
    let x := utf8First s0
    if x ≥ 0xF0 then
      (if x % 2 = 1 then RuneError else s0, 1)
    else
      let sz := x &&& 7
      let accept := acceptRanges (x >>> 4)
      if s.length < sz then (RuneError, 1)
      else
        let s1 := s.getD 1 0
        if s1 < accept.1 || accept.2 < s1 then (RuneError, 1)
        else if sz ≤ 2 then (((s0 &&& 0x1F) <<< 6) ||| (s1 &&& 0x3F), 2)
        else
          let s2 := s.getD 2 0
          if s2 < 0x80 || 0xBF < s2 then (RuneError, 1)
          else if sz ≤ 3 then
            (((s0 &&& 0x0F) <<< 12) ||| ((s1 &&& 0x3F) <<< 6) ||| (s2 &&& 0x3F), 3)
          else
            let s3 := s.getD 3 0
            if s3 < 0x80 || 0xBF < s3 then (RuneError, 1)
            else
              (((s0 &&& 0x07) <<< 18) ||| ((s1 &&& 0x3F) <<< 12) ||| ((s2 &&& 0x3F) <<< 6)
                ||| (s3 &&& 0x3F), 4)

/-- The first loop of `scanChunk`: drops the leading stars of the pattern and
records whether there was one. -/
def scanChunk.stars : GoString → Bool → Bool × GoString
  | [], star => (star, [])
  | c :: p, star => if c = 42 then scanChunk.stars p true else (star, c :: p)

/-- The loop labelled `Scan` of `scanChunk`: the index `i` at which it stops,
counted from the position reached; `inrange` is the loop variable of that
name. -/
def scanChunk.scan : GoString → Bool → Nat
  | [], _ => 0
  | c :: p, inrange =>
    if c = 92 then
      match p with
      | [] => 1
      | _ :: q => 2 + scanChunk.scan q inrange
    else if c = 91 then 1 + scanChunk.scan p true
    else if c = 93 then 1 + scanChunk.scan p false
    else if c = 42 then (if !inrange then 0 else 1 + scanChunk.scan p inrange)
    else 1 + scanChunk.scan p inrange

/-- The function `scanChunk` of `path/filepath`: the next segment of the
pattern, a non-star string possibly preceded by a star; returns
`(star, chunk, rest)`. -/
def scanChunk (pattern : GoString) : Bool × GoString × GoString :=
  let sp := scanChunk.stars pattern false
  let i := scanChunk.scan sp.2 false
  (sp.1, sp.2.take i, sp.2.drop i)

/-- The function `getEsc` of `path/filepath`: a possibly escaped character of
a character class; `none` stands for the error `ErrBadPattern`, otherwise the
rune and the rest of the chunk. -/
def getEsc (chunk : GoString) : Option (Nat × GoString) :=
  match chunk with
  | [] => none
  | c :: t =>
    if c = 45 || c = 93 then none
    else
      let chunk1 := if c = 92 then t else chunk
      if c = 92 ∧ chunk1.length = 0 then none
      else
        let rn := DecodeRuneInString chunk1
        let nchunk := chunk1.drop rn.2
        if rn.1 = RuneError ∧ rn.2 = 1 then none
        else if nchunk.length = 0 then none
        else some (rn.1, nchunk)

/-- The loop `for { ... }` that parses the ranges of a character class in
`matchChunk`; `r` is the rune of the name under test, `isMatch` and `nrange`
the loop variables `match` and `nrange`.  The outer `none` is an exhausted
`fuel`, the inner `none` the error `ErrBadPattern`; otherwise the chunk after
the closing bracket and the final value of `match`. -/
def matchChunk.ranges : Nat → Nat → GoString → Bool → Nat → Option (Option (GoString × Bool))
  | 0, _, _, _, _ => none
  | fuel + 1, r, chunk, isMatch, nrange =>
    if chunk.head? = some 93 ∧ nrange > 0 then some (some (chunk.drop 1, isMatch))
    else
      match getEsc chunk with
      | none => some none
      | some (lo, chunk1) =>
        if chunk1.head? = some 45 then
          match getEsc (chunk1.drop 1) with
          | none => some none
          | some (hi, chunk2) =>
            matchChunk.ranges fuel r chunk2 (if lo ≤ r ∧ r ≤ hi then true else isMatch)
              (nrange + 1)
        else
          matchChunk.ranges fuel r chunk1 (if lo ≤ r ∧ r ≤ lo then true else isMatch)
            (nrange + 1)

/-- The main loop `for len(chunk) > 0` of `matchChunk`, with the loop
variables `chunk`, `s` and `failed`.  `none` is an exhausted `fuel`;
otherwise the triple `(rest, ok, err)` that `matchChunk` returns. -/
def matchChunk.loop : Nat → GoString → GoString → Bool →
    Option (GoString × Bool × Option GoError)
  | 0, _, _, _ => none
  | fuel + 1, chunk, s, failed0 =>
    match chunk with
    | [] => some (if failed0 then ([], false, none) else (s, true, none))
    | c :: chunk1 =>
      let failed := if !failed0 && s.length = 0 then true else failed0
      if c = 91 then
        let r := if !failed then (DecodeRuneInString s).1 else 0
        let s1 := if !failed then s.drop (DecodeRuneInString s).2 else s
        let negated : Bool := decide (chunk1.head? = some 94)
        let chunk2 := if negated then chunk1.drop 1 else chunk1
        match matchChunk.ranges (chunk2.length + 1) r chunk2 false 0 with
        | none => none
        | some none => some ([], false, some GoError.ErrBadPattern)
        | some (some (chunk3, isMatch)) =>
          matchChunk.loop fuel chunk3 s1 (if isMatch = negated then true else failed)
      else if c = 63 then
        let failed1 := if !failed && s.head? = some 47 then true else failed
        let s1 := if !failed then s.drop (DecodeRuneInString s).2 else s
        matchChunk.loop fuel chunk1 s1 failed1
      else
        let chunk2 := if c = 92 then chunk1 else c :: chunk1
        if c = 92 ∧ chunk2.length = 0 then some ([], false, some GoError.ErrBadPattern)
        else
          let failed1 := if !failed && chunk2.head? ≠ s.head? then true else failed
          let s1 := if !failed then s.drop 1 else s
          matchChunk.loop fuel (chunk2.drop 1) s1 failed1

/-- The function `matchChunk` of `path/filepath`: whether `chunk` matches the
beginning of `s`; returns `(rest, ok, err)`.  `none` is an exhausted fuel
(`matchChunk_ne_none` shows that this never happens). -/
def matchChunk (chunk s : GoString) : Option (GoString × Bool × Option GoError) :=
  matchChunk.loop (chunk.length + 1) chunk s false

/-- Outcome of the inner loop of `Match` that skips bytes of the name under
a star: `found t` is `continue Pattern` with `name = t`; `failed err` is
`return false, err`; `exhausted` is the loop running to its end; `noFuel` is
an exhausted fuel of `matchChunk`. -/
inductive SkipResult where
  | found (t : List Nat)
  | failed (err : GoError)
  | exhausted
  | noFuel
deriving DecidableEq, Repr

/-- The loop `for i := 0; i < len(name) && name[i] != Separator; i++` of
`Match`; the argument is `name[i:]`, and `patternEmpty` is `len(pattern) == 0`. -/
def Match.skip (chunk : GoString) (patternEmpty : Bool) : GoString → SkipResult
  | [] => .exhausted
  | c :: rest =>
    if c = 47 then .exhausted
    else
      match matchChunk chunk rest with
      | none => .noFuel
      | some (t, ok, err) =>
        if ok then
          if patternEmpty && t.length > 0 then Match.skip chunk patternEmpty rest
          else .found t
        else
          match err with
          | some e => .failed e
          | none => Match.skip chunk patternEmpty rest

/-- The loop labelled `Pattern` of `Match`.  `none` is an exhausted fuel;
otherwise the pair `(matched, err)` that `Match` returns.  When the chunk
matches nowhere the loop ends in `return false, nil`: what is left of the
pattern is not looked at. -/
def Match.loop : Nat → GoString → GoString → Option (Bool × Option GoError)
  | 0, _, _ => none
  | fuel + 1, pattern0, name =>
    if pattern0.length > 0 then
      let sc := scanChunk pattern0
      let star := sc.1
      let chunk := sc.2.1
      let pattern := sc.2.2
      if star ∧ chunk = [] then some (!name.contains 47, none)
      else
        match matchChunk chunk name with
        | none => none
        | some (t, ok, err) =>
          if ok ∧ (t.length = 0 ∨ pattern.length > 0) then Match.loop fuel pattern t
          else
            match err with
            | some e => some (false, some e)
            | none =>
              match (if star then Match.skip chunk (pattern.length = 0) name
                     else SkipResult.exhausted) with
              | .found t1 => Match.loop fuel pattern t1
              | .failed e => some (false, some e)
              | .noFuel => none
              | .exhausted => some (false, none)
    else some (name.length = 0, none)

/-- The function `filepath.Match(pattern, name)`: returns `(matched, err)`,
where the only possible error is `ErrBadPattern`.  The default of `getD` is
never taken (`Match_loop_isSome`). -/
def Match (pattern name : GoString) : Bool × Option GoError :=
  (Match.loop (pattern.length + 1) pattern name).getD (false, none)

/-- A byte that is none of the glob metacharacters `*`, `?`, `[`, `\`. -/
def isLiteralByte (c : Nat) : Prop := c ≠ 42 ∧ c ≠ 63 ∧ c ≠ 91 ∧ c ≠ 92

instance : DecidablePred isLiteralByte := fun c =>
  inferInstanceAs (Decidable (c ≠ 42 ∧ c ≠ 63 ∧ c ≠ 91 ∧ c ≠ 92))

/-- The function `strings.Contains(s, "*")`. -/
def containsStar (s : GoString) : Bool := s.contains 42

/-- The function `strings.TrimSuffix(s, "*")`: `s` without one trailing star,
or `s` itself when it does not end in a star. -/
def trimSuffixStar (s : GoString) : GoString :=
  if s.getLast? = some 42 then s.dropLast else s

/-- The function `strings.HasPrefix(s, p)`. -/
def HasPrefix (s p : GoString) : Bool := p.isPrefixOf s

/-- The function `isProtected` of `internal/git.go`. -/
def isProtected (name : GoString) : List GoString → Bool
  | [] => false
  | pattern :: patterns =>
    match Match pattern name with
    | (_, some _) =>
      -- Invalid pattern, try prefix matching as fallback
      if containsStar pattern ∧ HasPrefix name (trimSuffixStar pattern) then true
      else isProtected name patterns
    | (matched, none) =>
      if matched then true else isProtected name patterns

/-! ## Branch classifier and guarded deletion (`internal/git.go`) -/

/-- A commit hash (`plumbing.Hash`). -/
abbrev Hash := Nat

/-- A branch reference as the code reads it: `Name` is `ref.Name().Short()`,
`Hash` is `ref.Hash()`. -/
structure Reference where
  Name : GoString
  Hash : Hash
deriving DecidableEq, Repr

/-- A commit object as the code reads it: `CommitterWhen` is
`commit.Committer.When`. -/
structure Commit where
  CommitterWhen : Time
deriving DecidableEq, Repr

/-- The collaborators that `GitRepo` consumes, acting on a world `σ` (the
repository on disk, its remote, the clock).

* `Branches w`: `g.repo.Branches()`, the branch references in iteration order,
  or the error of opening the iterator;
* `CommitObject w h`: `g.repo.CommitObject(h)`;
* `Head w`: `g.repo.Head()` followed by `.Name().Short()`;
* `RemoveReference w name`:
  `g.repo.Storer.RemoveReference(plumbing.NewBranchReferenceName(name))`;
* `runMergeBase w branch target`: `cmd.Run()` of
  `git merge-base --is-ancestor branch target` in the repository directory;
* `runPushDelete w name`: `cmd.CombinedOutput()` of
  `git push origin --delete name`, returning the new world, the output and the
  error;
* `Now w`: `time.Now()`; `AddDate t years months days`: `t.AddDate(...)`. -/
structure Collaborators (σ : Type) where
  Branches : σ → Except GoError (List Reference)
  CommitObject : σ → Hash → Except GoError Commit
  Head : σ → Except GoError GoString
  RemoveReference : σ → GoString → σ × Option GoError
  runMergeBase : σ → GoString → GoString → Option GoError
  runPushDelete : σ → GoString → σ × GoString × Option GoError
  Now : σ → Time
  AddDate : Time → Int → Int → Int → Time

/-- The record `GitRepo` of `internal/git.go`: the repository handle (with
the directory in which `git` is run) and the detected default branch. -/
structure GitRepo (σ : Type) where
  repo : Collaborators σ
  defaultBranch : GoString

/-- The method `GitRepo.isMerged`: `(true, nil)` when `git merge-base
--is-ancestor` exits with 0, `(false, nil)` when it exits with 1, and
`false` with a wrapped error otherwise. -/
def GitRepo.isMerged {σ : Type} (g : GitRepo σ) (w : σ) (branchName : GoString) :
    Bool × Option GoError :=
  match g.repo.runMergeBase w branchName g.defaultBranch with
  | some err =>
    match err with
    | .ExitError code =>
      if code = 1 then (false, none)
      else (false, some (.Errorf "failed to check merge status: %w" err []))
    | _ => (false, some (.Errorf "failed to check merge status: %w" err []))
  | none => (true, none)

/-- The callback passed to `branchRefs.ForEach` in `ListBranches`, iterated
over the references: `branches` is the captured slice; the iteration stops at
the first error that the callback returns, and `ForEach` returns that error.
The result is the final value of `branches` and the error of `ForEach`. -/
def GitRepo.ListBranches.forEach {σ : Type} (g : GitRepo σ) (w : σ) (staleThreshold : Time)
    (protectedPatterns : List GoString) : List Reference → List Branch →
    List Branch × Option GoError
  | [], branches => (branches, none)
  | ref :: refs, branches =>
    let name := ref.Name
    if name = g.defaultBranch then
      GitRepo.ListBranches.forEach g w staleThreshold protectedPatterns refs branches
    else
      match g.repo.CommitObject w ref.Hash with
      | .error commitErr => (branches, some commitErr)
      | .ok commit =>
        match g.isMerged w name with
        | (_, some mergeErr) => (branches, some mergeErr)
        | (isMerged, none) =>
          let branch : Branch :=
            { Name := name
              IsMerged := isMerged
              IsStale := decide (commit.CommitterWhen < staleThreshold)
              LastCommit := commit.CommitterWhen
              Protected := isProtected name protectedPatterns }
          GitRepo.ListBranches.forEach g w staleThreshold protectedPatterns refs
            (branches ++ [branch])

/-- The method `GitRepo.ListBranches`: returns `(branches, err)`. -/
def GitRepo.ListBranches {σ : Type} (g : GitRepo σ) (w : σ) (staleDays : Int)
    (protectedPatterns : List GoString) : List Branch × Option GoError :=
  match g.repo.Branches w with
  | .error err => ([], some err)
  | .ok branchRefs =>
    let staleThreshold := g.repo.AddDate (g.repo.Now w) 0 0 (-staleDays)
    GitRepo.ListBranches.forEach g w staleThreshold protectedPatterns branchRefs []

/-- The method `GitRepo.DeleteBranch`: returns the new world and the error. -/
def GitRepo.DeleteBranch {σ : Type} (g : GitRepo σ) (w : σ) (name : GoString) :
    σ × Option GoError :=
  -- Check if trying to delete current branch: `err == nil && head.Name().Short() == name`
  let isCurrent : Bool :=
    match g.repo.Head w with
    | .ok head => decide (head = name)
    | .error _ => false
  if isCurrent then
    (w, some (.Errorf "%w: '%s'" .ErrCurrentBranch [name]))
  -- Check if trying to delete default branch
  else if name = g.defaultBranch then
    (w, some (.Errorf "%w: '%s'" .ErrDefaultBranch [name]))
  else g.repo.RemoveReference w name

/-- The method `GitRepo.DeleteRemoteBranch`: returns the new world and the
error. -/
def GitRepo.DeleteRemoteBranch {σ : Type} (g : GitRepo σ) (w : σ) (name : GoString) :
    σ × Option GoError :=
  match g.repo.runPushDelete w name with
  | (w1, output, some err) =>
    (w1, some (.Errorf "failed to delete remote branch: %w\nOutput: %s" err [output]))
  | (w1, _, none) => (w1, none)

/-! ## Deletion loop of `runCleanup` (`main.go`) -/

/-- A call made on the `GitRepo` by the deletion loop, with the branch name
passed and the error returned. -/
inductive Call where
  | DeleteBranch (name : List Nat) (err : Option GoError)
  | DeleteRemoteBranch (name : List Nat) (err : Option GoError)
deriving DecidableEq, Repr

/-- A message written by the deletion loop, on standard output unless said
otherwise: `deleting` is `Deleting branch: %s` (verbose only); `localFailed`
is `Failed to delete local branch %s: %v` (standard error); `localDeleted` is
`Deleted local branch %s`; `remoteFailed` is `Failed to delete remote branch
%s: %v` (standard error); `remoteDeleted` is `Deleted remote branch %s`;
`summary` is `Deleted %d of %d branches`. -/
inductive Line where
  | deleting (name : List Nat)
  | localFailed (name : List Nat) (err : GoError)
  | localDeleted (name : List Nat)
  | remoteFailed (name : List Nat) (err : GoError)
  | remoteDeleted (name : List Nat)
  | summary (successCount total : Nat)
deriving DecidableEq, Repr

/-- The variables of the deletion loop: the world, `hasErrors`,
`successCount`, the calls made so far and the messages written so far. -/
structure LoopState (σ : Type) where
  world : σ
  hasErrors : Bool
  successCount : Nat
  calls : List Call
  out : List Line

/-- The body of `for _, branch := range selected` in `runCleanup`. -/
def runCleanup.loopBody {σ : Type} (git : GitRepo σ) (verbose deleteRemote : Bool)
    (st : LoopState σ) (branch : Branch) : LoopState σ :=
  let out0 := if verbose then st.out ++ [Line.deleting branch.Name] else st.out
  -- Delete local branch
  match git.DeleteBranch st.world branch.Name with
  | (w1, some err) =>
    { world := w1
      hasErrors := true
      successCount := st.successCount
      calls := st.calls ++ [Call.DeleteBranch branch.Name (some err)]
      out := out0 ++ [Line.localFailed branch.Name err] }
  | (w1, none) =>
    let calls1 := st.calls ++ [Call.DeleteBranch branch.Name none]
    let out1 := out0 ++ [Line.localDeleted branch.Name]
    -- Delete remote branch if flag is set
    if deleteRemote then
      match git.DeleteRemoteBranch w1 branch.Name with
      | (w2, some err) =>
        -- Don't mark as error since local deletion succeeded
        { world := w2
          hasErrors := st.hasErrors
          successCount := st.successCount + 1
          calls := calls1 ++ [Call.DeleteRemoteBranch branch.Name (some err)]
          out := out1 ++ [Line.remoteFailed branch.Name err] }
      | (w2, none) =>
        { world := w2
          hasErrors := st.hasErrors
          successCount := st.successCount + 1
          calls := calls1 ++ [Call.DeleteRemoteBranch branch.Name none]
          out := out1 ++ [Line.remoteDeleted branch.Name] }
    else
      { world := w1
        hasErrors := st.hasErrors
        successCount := st.successCount + 1
        calls := calls1
        out := out1 }

/-- What the deletion part of `runCleanup` leaves: the world, the calls made
on the `GitRepo`, the messages written and the error returned. -/
structure LoopResult (σ : Type) where
  world : σ
  calls : List Call
  out : List Line
  err : Option GoError

/-- The deletion part of `runCleanup` (from `var hasErrors bool` to the end
of the function), reached when `dryRun` is false: the loop over `selected`,
the summary line, and the error returned when `hasErrors` is set. -/
def runCleanup.deleteSelected {σ : Type} (git : GitRepo σ) (verbose deleteRemote : Bool)
    (w : σ) (selected : List Branch) : LoopResult σ :=
  let st := selected.foldl (runCleanup.loopBody git verbose deleteRemote)
    { world := w, hasErrors := false, successCount := 0, calls := [], out := [] }
  { world := st.world
    calls := st.calls
    out := st.out ++ [Line.summary st.successCount selected.length]
    err := if st.hasErrors then some (.New "some branches failed to delete") else none }

/-- The names passed to `DeleteBranch`, in call order, with the errors
returned. -/
def localCalls (calls : List Call) : List (GoString × Option GoError) :=
  calls.filterMap (fun c =>
    match c with
    | .DeleteBranch name err => some (name, err)
    | .DeleteRemoteBranch _ _ => none)

/-- The names passed to `DeleteRemoteBranch`, in call order. -/
def remoteCalls (calls : List Call) : List GoString :=
  calls.filterMap (fun c =>
    match c with
    | .DeleteBranch _ _ => none
    | .DeleteRemoteBranch name _ => some name)

/-! ## Interactive selection (`internal/ui.go`) -/

/-- What one call of `prompt.Run()` of `promptui.Select` returns in
`SelectBranches`: `index idx` is the chosen index with a nil error;
`interrupt` is an error that is `promptui.ErrInterrupt` or whose text contains
`^C`; `failure err` is any other error. -/
inductive PromptResult where
  | index (idx : Nat)
  | interrupt
  | failure (err : GoError)
deriving DecidableEq, Repr

/-- How the loop `for { ... }` of `SelectBranches` ends: `confirmed` is the
`break` with the final `selectedMap`; `returned err` is a `return nil, err`;
`blocked` is the prompt still waiting when the recorded answers are used up. -/
inductive SelectOutcome where
  | confirmed (selectedMap : Nat → Bool)
  | returned (err : GoError)
  | blocked

/-- The loop `for { ... }` of `SelectBranches` on a list of `n` branches:
`answers` are the results of the successive calls of `prompt.Run()`, and
`selectedMap` is the Go map of that name (a missing key reads `false`).  The
items shown by the prompt are text only and are left out. -/
def SelectBranches.loop (n : Nat) : List PromptResult → (Nat → Bool) → SelectOutcome
  | [], _ => .blocked
  | .interrupt :: _, _ => .returned .ErrCancelled
  | .failure err :: _, _ => .returned (.Errorf "selection failed: %w" err [])
  | .index idx :: answers, selectedMap =>
    -- If user selected the confirm option
    if idx = n then .confirmed selectedMap
    -- Toggle selection
    else SelectBranches.loop n answers (fun i => if i = idx then !selectedMap idx else selectedMap i)

/-- The loop `for i, branch := range branches` that builds the result slice
of `SelectBranches`; `i` is the index of the head of the list. -/
def SelectBranches.build (selectedMap : Nat → Bool) : Nat → List Branch → List Branch →
    List Branch
  | _, [], selected => selected
  | i, branch :: branches, selected =>
    SelectBranches.build selectedMap (i + 1) branches
      (if selectedMap i then selected ++ [branch] else selected)

/-- The function `SelectBranches` of `internal/ui.go`, run against the
recorded `answers` of the prompt: `none` when the prompt is still waiting
after the last answer, otherwise the pair `(selected, err)` returned. -/
def SelectBranches (branches : List Branch) (answers : List PromptResult) :
    Option (List Branch × Option GoError) :=
  if branches.length = 0 then some ([], none)
  else
    match SelectBranches.loop branches.length answers (fun _ => false) with
    | .blocked => none
    | .returned err => some ([], some err)
    | .confirmed selectedMap => some (SelectBranches.build selectedMap 0 branches [], none)

/-! ## The command `runCleanup` and `main` (`main.go`) -/

/-- The package-level flag variables of `main.go` read by `runCleanup`
(`protectedPatterns` is the variable `protected`). -/
structure Flags where
  dryRun : Bool
  staleDays : Int
  protectedPatterns : List GoString
  mergedOnly : Bool
  staleOnly : Bool
  verbose : Bool
  force : Bool
  assumeYes : Bool
  deleteRemote : Bool

/-- What a run of the command meets outside the repository code: `Getwd` is
`os.Getwd()`; `gitDirMissing path` is `os.IsNotExist(err)` for `os.Stat` of
`path/.git`; `NewGitRepo path` is `internal.NewGitRepo(path)` (the opening of
the repository and the detection of the default branch); `world` is the state
of the repository when the command starts; `answers` are the results of the
calls of `prompt.Run()` in `SelectBranches`; `confirm` is whether
`prompt.Run()` in `ConfirmDeletion` returns a nil error. -/
structure Session (σ : Type) where
  Getwd : Except GoError GoString
  gitDirMissing : GoString → Bool
  NewGitRepo : GoString → Except GoError (GitRepo σ)
  world : σ
  answers : List PromptResult
  confirm : Bool

/-- A message written by `runCleanup`: `noBranches` is `No branches to clean
up`; `noneSelected` is `No branches selected`; `aboutTo dryRun names` is what
`ConfirmDeletion` prints before its prompt; `cancelled` is `Cancelled`;
`dryRunHeader` is `[DRY RUN] Would delete:` and `dryRunItem name remote` one
line of the list under it (`remote` adds `(local and remote)`); `line` is a
message of the deletion loop. -/
inductive Message where
  | noBranches
  | noneSelected
  | aboutTo (dryRun : Bool) (names : List (List Nat))
  | cancelled
  | dryRunHeader
  | dryRunItem (name : List Nat) (remote : Bool)
  | line (l : Line)
deriving DecidableEq, Repr

/-- What a run of `runCleanup` leaves: the world, the calls of `DeleteBranch`
and `DeleteRemoteBranch` made on the `GitRepo`, the messages written and the
error returned. -/
structure CleanupResult (σ : Type) where
  world : σ
  calls : List Call
  out : List Message
  err : Option GoError

/-- The function `validateFlags` of `main.go`. -/
def validateFlags (flags : Flags) : Option GoError :=
  if flags.staleDays ≤ 0 then some (.New "stale-days must be positive, got %d") else none

/-- The function `validateGitRepo` of `main.go`. -/
def validateGitRepo {σ : Type} (s : Session σ) (path : GoString) : Option GoError :=
  if s.gitDirMissing path then
    some (.New "not a git repository (or any parent up to mount point)")
  else none

/-- The function `ConfirmDeletion` of `internal/ui.go`: the message it
prints, and its result `err == nil` for the answer of the prompt. -/
def ConfirmDeletion {σ : Type} (s : Session σ) (branches : List Branch) (dryRun : Bool) :
    List Message × Bool :=
  ([Message.aboutTo dryRun (branches.map Branch.Name)], s.confirm)

/-- A `return err` of `runCleanup` before anything is written or deleted. -/
def runCleanup.fail {σ : Type} (s : Session σ) (err : GoError) : CleanupResult σ :=
  { world := s.world, calls := [], out := [], err := some err }

/-- The function `runCleanup` of `main.go`.  `none` is a run that does not
return, its selection prompt still waiting. -/
def runCleanup {σ : Type} (flags : Flags) (s : Session σ) : Option (CleanupResult σ) :=
  -- Validate flags
  match validateFlags flags with
  | some err => some (runCleanup.fail s err)
  | none =>
  match s.Getwd with
  | .error err =>
    some (runCleanup.fail s (.Errorf "failed to get working directory: %w" err []))
  | .ok repoPath =>
  -- Validate git repository
  match validateGitRepo s repoPath with
  | some err => some (runCleanup.fail s err)
  | none =>
  match s.NewGitRepo repoPath with
  | .error err => some (runCleanup.fail s err)
  | .ok git =>
  match git.ListBranches s.world flags.staleDays flags.protectedPatterns with
  | (_, some err) => some (runCleanup.fail s (.Errorf "failed to list branches: %w" err []))
  | (branches, none) =>
  let filtered := FilterBranches branches flags.mergedOnly flags.staleOnly
  if filtered.length = 0 then
    some { world := s.world, calls := [], out := [Message.noBranches], err := none }
  else
  match SelectBranches filtered s.answers with
  | none => none
  | some (_, some err) =>
    some (runCleanup.fail s (.Errorf "branch selection failed: %w" err []))
  | some (selected, none) =>
  if selected.length = 0 then
    some { world := s.world, calls := [], out := [Message.noneSelected], err := none }
  else
  -- Skip confirmation if force or assumeYes flag is set
  let asked : Bool := !flags.force && !flags.assumeYes
  let out0 := if asked then (ConfirmDeletion s selected flags.dryRun).1 else []
  if asked && !(ConfirmDeletion s selected flags.dryRun).2 then
    some { world := s.world, calls := [], out := out0 ++ [Message.cancelled], err := none }
  else if flags.dryRun then
    some { world := s.world
           calls := []
           out := out0 ++ [Message.dryRunHeader] ++
             selected.map (fun b => Message.dryRunItem b.Name flags.deleteRemote)
           err := none }
  else
    let r := runCleanup.deleteSelected git flags.verbose flags.deleteRemote s.world selected
    some { world := r.world
           calls := r.calls
           out := out0 ++ r.out.map Message.line
           err := r.err }

/-- The constant `exitSuccess` of `main.go`. -/
def exitSuccess : Nat := 0

/-- The constant `exitError` of `main.go`. -/
def exitError : Nat := 1

/-- The constant `exitProtectedBranch` of `main.go`. -/
def exitProtectedBranch : Nat := 2

/-- The exit status that `main` gives the process for the error `err`
returned by `rootCmd.Execute()`: `exitProtectedBranch` or `exitError` through
`os.Exit` when `err` is not nil, and the status 0 of a `main` that returns
otherwise. -/
def main.exitStatus (err : Option GoError) : Nat :=
  match err with
  | some e =>
    -- Check for custom error types
    if errorsAsProtectedBranchError e then exitProtectedBranch
    else if errorsIs e .ErrProtectedBranch || errorsIs e .ErrCurrentBranch ||
        errorsIs e .ErrDefaultBranch then exitProtectedBranch
    else exitError
  | none => exitSuccess

/-- The function `main` of `main.go` for an invocation of the root command,
where `rootCmd.Execute()` returns the error of `runCleanup`: the exit status
of the process, or `none` when `runCleanup` does not return. -/
def main {σ : Type} (flags : Flags) (s : Session σ) : Option Nat :=
  (runCleanup flags s).map (fun r => main.exitStatus r.err)

/-! ## Calendar arithmetic (`time`)

`ListBranches` computes its threshold with `time.Time.AddDate` of the Go
standard library, which is not part of the repository.  It is transcribed
here for the call that the code makes, `AddDate(0, 0, days)`, on a time in the
location UTC, an instant being counted in nanoseconds since the zero
`time.Time`. -/

/-- The conversion `int64(x)` of Go: the value congruent to `x` modulo `2^64`
in the range of `int64`. -/
def wrapInt64 (x : Int) : Int :=
  (x + 9223372036854775808) % 18446744073709551616 - 9223372036854775808

/-- The method call `t.AddDate(0, 0, days)` of the Go standard library in the
location UTC: `AddDate` hands the date and clock of `t`, with `days` added to
the day of the month, to `time.Date`, which counts the seconds of the result
in 64-bit arithmetic (`abs := d * secondsPerDay`, then `int64(abs)`); so the
seconds of the result are those of `t` plus `86400 * days` modulo `2^64`, and
the nanoseconds within the second are those of `t`. -/
def AddDateDays (t : Time) (days : Int) : Time :=
  wrapInt64 (t / 1000000000 + days * 86400) * 1000000000 + t % 1000000000

/-- The largest value of a Go `int` (64 bits), which the flag `--stale-days`
can hold. -/
def maxInt : Int := 9223372036854775807

/-! ## A concrete repository for the examples -/

/-- A small repository, whose world is its list of branch references.  Time
is counted in days: the clock reads day 100 and `AddDate` adds the days.  The
commit of hash `h` was committed on day `h`, except that the object of hash 0
cannot be read.  Only `feature-a` is an ancestor of the default branch `main`;
the ancestry query fails with status 128 on the branch `odd`.  HEAD is on
`head`; pushing a deletion fails when `remoteFails` is set. -/
def exampleGit (head : GoString) (remoteFails : Bool) : GitRepo (List Reference) where
  repo :=
    { Branches := fun w => .ok w
      CommitObject := fun _ h =>
        if h = 0 then .error (.external "object not found") else .ok { CommitterWhen := h }
      Head := fun _ => .ok head
      RemoveReference := fun w name => (w.filter (fun r => r.Name ≠ name), none)
      runMergeBase := fun _ branch _ =>
        if branch = str "feature-a" then none
        else if branch = str "odd" then some (.ExitError 128)
        else some (.ExitError 1)
      runPushDelete := fun w _ =>
        if remoteFails then (w, str "error: unable to delete", some (.ExitError 1))
        else (w, [], none)
      Now := fun _ => 100
      AddDate := fun t _ _ days => t + days }
  defaultBranch := str "main"

/-- The branch references of the example: `main`, `feature-a` (day 60),
`feature-b` (day 95) and `release/1.0` (day 10). -/
def exampleRefs : List Reference :=
  [⟨str "main", 99⟩, ⟨str "feature-a", 60⟩, ⟨str "feature-b", 95⟩, ⟨str "release/1.0", 10⟩]

/-- The flags of the examples: 30 stale days, the pattern `release/*`, no
filter flag, `--force`, and the given `--dry-run` and `--remote`. -/
def exampleFlags (dryRun deleteRemote : Bool) : Flags where
  dryRun := dryRun
  staleDays := 30
  protectedPatterns := [str "release/*"]
  mergedOnly := false
  staleOnly := false
  verbose := false
  force := true
  assumeYes := false
  deleteRemote := deleteRemote

/-- A run of the command in the example repository, with HEAD on `head` and
the given answers of the selection prompt; the confirmation prompt, when
asked, is declined. -/
def exampleSession (head : GoString) (answers : List PromptResult) :
    Session (List Reference) where
  Getwd := .ok (str "/repo")
  gitDirMissing := fun _ => false
  NewGitRepo := fun _ => .ok (exampleGit head false)
  world := exampleRefs
  answers := answers
  confirm := false

/-- The instant of the clock examples: second 63898000000 since the zero
`time.Time` (in the year 2025), in nanoseconds. -/
def clockNow : Time := 63898000000 * 1000000000

/-- A repository on the clock of the Go standard library in UTC: the clock
reads `clockNow`, `AddDate` is `AddDateDays`, and the commit of hash `h` was
committed `h` seconds before `clockNow`.  No branch is an ancestor of the
default branch `main`, on which HEAD is. -/
def clockGit : GitRepo (List Reference) where
  repo :=
    { Branches := fun w => .ok w
      CommitObject := fun _ h => .ok { CommitterWhen := clockNow - h * 1000000000 }
      Head := fun _ => .ok (str "main")
      RemoveReference := fun w name => (w.filter (fun r => r.Name ≠ name), none)
      runMergeBase := fun _ _ _ => some (.ExitError 1)
      runPushDelete := fun w _ => (w, [], none)
      Now := fun _ => clockNow
      AddDate := fun t _ _ days => AddDateDays t days }
  defaultBranch := str "main"

/-! # Theorems -/

/-! ## Filter engine: lemmas -/

theorem FilterBranches.body_eq (m s : Bool) (acc : List Branch) (b : Branch) :
    FilterBranches.body m s acc b = acc ++ (if FilterBranches.keeps m s b then [b] else []) := by
  unfold FilterBranches.body FilterBranches.keeps
  cases m <;> cases s <;> cases hp : b.Protected <;> cases hm : b.IsMerged <;>
    cases hs : b.IsStale <;> simp

theorem FilterBranches.foldl_eq (m s : Bool) (B : List Branch) (acc : List Branch) :
    B.foldl (FilterBranches.body m s) acc = acc ++ B.filter (FilterBranches.keeps m s) := by
  induction B generalizing acc with
  | nil => simp
  | cons b B ih =>
    rw [List.foldl_cons, ih, FilterBranches.body_eq]
    by_cases h : FilterBranches.keeps m s b <;> simp [List.filter_cons, h]

theorem FilterBranches.eq_filter (B : List Branch) (m s : Bool) :
    FilterBranches B m s = B.filter (FilterBranches.keeps m s) := by
  unfold FilterBranches
  rw [FilterBranches.foldl_eq]
  simp

/-! ## Filter engine: claims -/

/-- C1: no element of `FilterBranches B mergedOnly staleOnly` is protected,
whatever the flags; in particular the result is empty when every branch of
`B` is protected. -/
theorem FilterBranches_never_protected (B : List Branch) (mergedOnly staleOnly : Bool) :
    (∀ b ∈ FilterBranches B mergedOnly staleOnly, b.Protected = false) ∧
    ((∀ b ∈ B, b.Protected = true) → FilterBranches B mergedOnly staleOnly = []) := by
  rw [FilterBranches.eq_filter]
  constructor
  · intro b hb
    have h := (List.mem_filter.mp hb).2
    unfold FilterBranches.keeps at h
    cases hp : b.Protected
    · rfl
    · simp [hp] at h
  · intro hall
    rw [List.filter_eq_nil_iff]
    intro b hb
    simp [FilterBranches.keeps, hall b hb]

/-- Witness for C1: a list whose only unprotected candidate survives, and an
all-protected list (the one of `TestFilterBranches_AllProtected`) that filters
to nothing. -/
theorem FilterBranches_never_protected_witness :
    (∀ b ∈ FilterBranches [⟨str "merged-branch", true, false, 0, false⟩,
        ⟨str "protected-branch", true, false, 0, true⟩] true false, b.Protected = false) ∧
    FilterBranches [⟨str "main", true, false, 0, true⟩, ⟨str "master", true, false, 0, true⟩]
      false false = [] :=
  ⟨(FilterBranches_never_protected _ true false).1,
   (FilterBranches_never_protected _ false false).2 (by decide)⟩

/-- C2: `FilterBranches` returns the input restricted, in the original order
and with the records unchanged, to the unprotected branches that are: merged or
stale when both flags are false; merged when only `mergedOnly` is set; stale
when only `staleOnly` is set; merged and stale when both flags are set. -/
theorem FilterBranches_decision_table (B : List Branch) :
    FilterBranches B false false
      = B.filter (fun b => !b.Protected && (b.IsMerged || b.IsStale)) ∧
    FilterBranches B true false = B.filter (fun b => !b.Protected && b.IsMerged) ∧
    FilterBranches B false true = B.filter (fun b => !b.Protected && b.IsStale) ∧
    FilterBranches B true true
      = B.filter (fun b => !b.Protected && (b.IsMerged && b.IsStale)) := by
  refine ⟨?_, ?_, ?_, ?_⟩ <;> rw [FilterBranches.eq_filter] <;> congr 1

/-! ## Protection matcher: lemmas -/

theorem scanChunk.scan_cons_literal (c : Nat) (p : GoString) (inrange : Bool)
    (h92 : c ≠ 92) (h91 : c ≠ 91) :
    scanChunk.scan (c :: p) inrange
      = if c = 93 then 1 + scanChunk.scan p false
        else if c = 42 then (if !inrange then 0 else 1 + scanChunk.scan p inrange)
        else 1 + scanChunk.scan p inrange := by
  rw [scanChunk.scan.eq_def]
  simp only [h92, h91, if_false]

theorem scanChunk.scan_literal (P : GoString) (hP : ∀ c ∈ P, isLiteralByte c) :
    scanChunk.scan (P ++ [42]) false = P.length := by
  induction P with
  | nil => simp [scanChunk.scan]
  | cons c P ih =>
    obtain ⟨h42, _, h91, h92⟩ := hP c (List.mem_cons_self c P)
    have ih1 := ih (fun d hd => hP d (List.mem_cons_of_mem c hd))
    rw [List.cons_append, scanChunk.scan_cons_literal c _ false h92 h91, ih1]
    simp only [h42, if_false, List.length_cons]
    split <;> omega

theorem scanChunk.stars_literal (c : Nat) (P : GoString) (h : c ≠ 42) :
    scanChunk.stars (c :: P) false = (false, c :: P) := by
  simp [scanChunk.stars, h]

theorem scanChunk_literal_star (c : Nat) (P : GoString) (hP : ∀ d ∈ c :: P, isLiteralByte d) :
    scanChunk (c :: P ++ [42]) = (false, c :: P, [42]) := by
  have h42 : c ≠ 42 := (hP c (List.mem_cons_self c P)).1
  have hs := scanChunk.scan_literal (c :: P) hP
  simp only [List.cons_append] at hs
  simp only [scanChunk, List.cons_append, scanChunk.stars_literal _ _ h42, hs]
  simp

theorem scanChunk_star : scanChunk [42] = (true, [], []) := by decide

theorem matchChunk.loop_failed (P : GoString) (hP : ∀ c ∈ P, isLiteralByte c) :
    ∀ (fuel : Nat) (s : GoString), P.length < fuel →
      matchChunk.loop fuel P s true = some ([], false, none) := by
  induction P with
  | nil =>
    intro fuel s hf
    obtain ⟨f, rfl⟩ : ∃ f, fuel = f + 1 := ⟨fuel - 1, by simp at hf; omega⟩
    simp [matchChunk.loop]
  | cons c P ih =>
    intro fuel s hf
    obtain ⟨f, rfl⟩ : ∃ f, fuel = f + 1 := ⟨fuel - 1, by simp at hf; omega⟩
    obtain ⟨_, h63, h91, h92⟩ := hP c (List.mem_cons_self c P)
    have ih1 := ih (fun d hd => hP d (List.mem_cons_of_mem c hd)) f
    simp only [List.length_cons] at hf
    simp [matchChunk.loop, h63, h91, h92, ih1, Nat.lt_of_succ_lt_succ hf]

theorem matchChunk.loop_literal (P : GoString) (hP : ∀ c ∈ P, isLiteralByte c) :
    ∀ (fuel : Nat) (s : GoString), P.length < fuel →
      matchChunk.loop fuel P s false
        = some (if P.isPrefixOf s then (s.drop P.length, true, none) else ([], false, none)) := by
  induction P with
  | nil =>
    intro fuel s hf
    obtain ⟨f, rfl⟩ : ∃ f, fuel = f + 1 := ⟨fuel - 1, by simp at hf; omega⟩
    simp [matchChunk.loop]
  | cons c P ih =>
    intro fuel s hf
    obtain ⟨f, rfl⟩ : ∃ f, fuel = f + 1 := ⟨fuel - 1, by simp at hf; omega⟩
    obtain ⟨_, h63, h91, h92⟩ := hP c (List.mem_cons_self c P)
    have hP1 : ∀ d ∈ P, isLiteralByte d := fun d hd => hP d (List.mem_cons_of_mem c hd)
    simp only [List.length_cons] at hf
    have hf1 : P.length < f := Nat.lt_of_succ_lt_succ hf
    cases s with
    | nil => simp [matchChunk.loop, h63, h91, h92, matchChunk.loop_failed P hP1 f _ hf1]
    | cons d s =>
      by_cases hcd : c = d
      · subst hcd
        simp [matchChunk.loop, h63, h91, h92, ih hP1 f s hf1]
      · simp [matchChunk.loop, h63, h91, h92, hcd, matchChunk.loop_failed P hP1 f _ hf1]

theorem matchChunk_literal (P s : GoString) (hP : ∀ c ∈ P, isLiteralByte c) :
    matchChunk P s
      = some (if P.isPrefixOf s then (s.drop P.length, true, none) else ([], false, none)) :=
  matchChunk.loop_literal P hP _ s (Nat.lt_succ_self _)

/-- What `filepath.Match` returns on a literal followed by a star: it matches
the names that start with the literal and have no separator after it. -/
theorem Match_literal_star (P name : GoString) (hP : ∀ c ∈ P, isLiteralByte c) :
    Match (P ++ [42]) name
      = (HasPrefix name P && !(name.drop P.length).contains 47, none) := by
  cases P with
  | nil => simp [Match, Match.loop, scanChunk_star, HasPrefix]
  | cons c P =>
    have hsc := scanChunk_literal_star c P hP
    have hmc := matchChunk_literal (c :: P) name hP
    simp only [Match, List.cons_append, List.length_cons, Match.loop] at *
    simp only [hsc, hmc]
    by_cases hpre : (c :: P).isPrefixOf name
    · simp [hpre, HasPrefix, Match.loop, scanChunk_star]
    · simp [hpre, HasPrefix]

/-! ## Protection matcher: the fuel is enough -/

theorem DecodeRuneInString_size_pos (c : Nat) (s : GoString) :
    1 ≤ (DecodeRuneInString (c :: s)).2 := by
  unfold DecodeRuneInString
  simp only
  split_ifs <;> simp

theorem getEsc_length (chunk : GoString) (r : Nat) (nchunk : GoString)
    (h : getEsc chunk = some (r, nchunk)) : nchunk.length < chunk.length := by
  cases chunk with
  | nil => simp [getEsc] at h
  | cons c t =>
    by_cases hc : c = 92
    · subst hc
      cases t with
      | nil => simp [getEsc] at h
      | cons d t =>
        have hpos := DecodeRuneInString_size_pos d t
        simp only [getEsc, if_true] at h
        split_ifs at h
        simp only [Option.some.injEq, Prod.mk.injEq] at h
        obtain ⟨_, rfl⟩ := h
        simp only [List.length_drop, List.length_cons]
        omega
    · have hpos := DecodeRuneInString_size_pos c t
      simp only [getEsc, hc, if_false, false_and] at h
      split_ifs at h
      simp only [Option.some.injEq, Prod.mk.injEq] at h
      obtain ⟨_, rfl⟩ := h
      simp only [List.length_drop, List.length_cons]
      omega

theorem matchChunk.ranges_length (r : Nat) :
    ∀ (fuel : Nat) (chunk : GoString) (isMatch : Bool) (nrange : Nat) (chunk1 : GoString)
      (m : Bool), matchChunk.ranges fuel r chunk isMatch nrange = some (some (chunk1, m)) →
      chunk1.length < chunk.length := by
  intro fuel
  induction fuel with
  | zero => intro chunk _ _ _ _ h; simp [matchChunk.ranges] at h
  | succ fuel ih =>
    intro chunk isMatch nrange chunk3 m h
    rw [matchChunk.ranges] at h
    by_cases h1 : chunk.head? = some 93 ∧ nrange > 0
    · rw [if_pos h1] at h
      simp only [Option.some.injEq, Prod.mk.injEq] at h
      obtain ⟨rfl, _⟩ := h
      cases chunk with
      | nil => simp at h1
      | cons c t => simp
    · rw [if_neg h1] at h
      cases hg : getEsc chunk with
      | none => simp [hg] at h
      | some p =>
        obtain ⟨lo, chunk1⟩ := p
        have hl1 := getEsc_length chunk lo chunk1 hg
        rw [hg] at h
        dsimp only at h
        by_cases h2 : chunk1.head? = some 45
        · rw [if_pos h2] at h
          cases hg2 : getEsc (chunk1.drop 1) with
          | none => rw [hg2] at h; simp at h
          | some q =>
            obtain ⟨hi, chunk2⟩ := q
            have hl2 := getEsc_length _ hi chunk2 hg2
            simp only [List.length_drop] at hl2
            rw [hg2] at h
            dsimp only at h
            have := ih _ _ _ _ _ h
            omega
        · rw [if_neg h2] at h
          have := ih _ _ _ _ _ h
          omega

theorem matchChunk.ranges_ne_none (r : Nat) :
    ∀ (fuel : Nat) (chunk : GoString) (isMatch : Bool) (nrange : Nat), chunk.length < fuel →
      matchChunk.ranges fuel r chunk isMatch nrange ≠ none := by
  intro fuel
  induction fuel with
  | zero => intro chunk _ _ h; omega
  | succ fuel ih =>
    intro chunk isMatch nrange hlen
    rw [matchChunk.ranges]
    by_cases h1 : chunk.head? = some 93 ∧ nrange > 0
    · rw [if_pos h1]; simp
    · rw [if_neg h1]
      cases hg : getEsc chunk with
      | none => simp
      | some p =>
        obtain ⟨lo, chunk1⟩ := p
        have hl1 := getEsc_length chunk lo chunk1 hg
        simp only
        by_cases h2 : chunk1.head? = some 45
        · rw [if_pos h2]
          cases hg2 : getEsc (chunk1.drop 1) with
          | none => simp
          | some q =>
            obtain ⟨hi, chunk2⟩ := q
            have hl2 := getEsc_length _ hi chunk2 hg2
            simp only [List.length_drop] at hl2
            simp only
            apply ih
            omega
        · rw [if_neg h2]
          apply ih
          omega

/-- The fuel of `matchChunk.loop` is enough: the loop returns. -/
theorem matchChunk_loop_ne_none :
    ∀ (fuel : Nat) (chunk s : GoString) (failed : Bool), chunk.length < fuel →
      matchChunk.loop fuel chunk s failed ≠ none := by
  intro fuel
  induction fuel with
  | zero => intro chunk _ _ h; omega
  | succ fuel ih =>
    intro chunk s failed hlen
    cases chunk with
    | nil => simp [matchChunk.loop]
    | cons c chunk1 =>
      simp only [List.length_cons] at hlen
      rw [matchChunk.loop]
      simp only
      by_cases h91 : c = 91
      · rw [if_pos h91]
        split
        · rename_i heq
          exact absurd heq (matchChunk.ranges_ne_none _ _ _ _ _ (Nat.lt_succ_self _))
        · simp
        · rename_i chunk3 isMatch heq
          have hl3 := matchChunk.ranges_length _ _ _ _ _ _ _ heq
          apply ih
          have : (if decide (chunk1.head? = some 94) = true then chunk1.drop 1 else chunk1).length
              ≤ chunk1.length := by
            split_ifs <;> simp
          omega
      · rw [if_neg h91]
        by_cases h63 : c = 63
        · rw [if_pos h63]
          apply ih
          omega
        · rw [if_neg h63]
          by_cases h92 : c = 92 ∧ (if c = 92 then chunk1 else c :: chunk1).length = 0
          · rw [if_pos h92]; simp
          · rw [if_neg h92]
            apply ih
            have : ((if c = 92 then chunk1 else c :: chunk1).drop 1).length ≤ chunk1.length := by
              split_ifs <;> simp
            omega

/-- The function `matchChunk` returns on every input. -/
theorem matchChunk_ne_none (chunk s : GoString) : matchChunk chunk s ≠ none :=
  matchChunk_loop_ne_none _ chunk s false (Nat.lt_succ_self _)

theorem scanChunk.stars_length (p : GoString) :
    ∀ star : Bool, (scanChunk.stars p star).2.length ≤ p.length ∧
      (scanChunk.stars p star).2.head? ≠ some 42 := by
  induction p with
  | nil => intro star; simp [scanChunk.stars]
  | cons c p ih =>
    intro star
    by_cases hc : c = 42
    · have := ih true
      simp only [scanChunk.stars, hc, if_true, List.length_cons]
      exact ⟨by omega, this.2⟩
    · simp [scanChunk.stars, hc]

theorem scanChunk.scan_pos (c : Nat) (p : GoString) (inrange : Bool) (hc : c ≠ 42) :
    1 ≤ scanChunk.scan (c :: p) inrange := by
  rw [scanChunk.scan.eq_def]
  simp only [hc, if_false]
  split_ifs
  · split <;> omega
  all_goals omega

/-- Scanning a chunk consumes at least one byte of a non-empty pattern. -/
theorem scanChunk_rest_length (pattern : GoString) (h : pattern ≠ []) :
    (scanChunk pattern).2.2.length < pattern.length := by
  obtain ⟨hlen, hhead⟩ := scanChunk.stars_length pattern false
  have hpos : 0 < pattern.length := List.length_pos.mpr h
  simp only [scanChunk, List.length_drop]
  cases hp : (scanChunk.stars pattern false).2 with
  | nil => simpa using hpos
  | cons c q =>
    rw [hp] at hlen hhead
    have hc : c ≠ 42 := by simpa using hhead
    have := scanChunk.scan_pos c q false hc
    simp only [List.length_cons] at hlen ⊢
    omega

/-- The loop of `Match` that skips bytes under a star never lacks fuel. -/
theorem Match.skip_ne_noFuel (chunk : GoString) (patternEmpty : Bool) (name : GoString) :
    Match.skip chunk patternEmpty name ≠ SkipResult.noFuel := by
  induction name with
  | nil => simp [Match.skip]
  | cons c rest ih =>
    rw [Match.skip]
    split_ifs with h47
    · simp
    · split
      · rename_i heq
        exact absurd heq (matchChunk_ne_none _ _)
      · rename_i t ok err heq
        split_ifs
        · exact ih
        · simp
        · split
          · simp
          · exact ih

/-- The fuel of `Match.loop` is enough: the loop returns. -/
theorem Match_loop_ne_none :
    ∀ (fuel : Nat) (pattern name : GoString), pattern.length < fuel →
      Match.loop fuel pattern name ≠ none := by
  intro fuel
  induction fuel with
  | zero => intro pattern _ h; omega
  | succ fuel ih =>
    intro pattern name hlen
    rw [Match.loop]
    by_cases hp : pattern.length > 0
    · rw [if_pos hp]
      have hne : pattern ≠ [] := List.length_pos.mp hp
      have hrest := scanChunk_rest_length pattern hne
      dsimp only
      by_cases hstar : (scanChunk pattern).1 = true ∧ (scanChunk pattern).2.1 = []
      · rw [if_pos hstar]; simp
      · rw [if_neg hstar]
        split
        · rename_i heq
          exact absurd heq (matchChunk_ne_none _ _)
        · rename_i t ok err heq
          by_cases hok : ok = true ∧ (t.length = 0 ∨ (scanChunk pattern).2.2.length > 0)
          · rw [if_pos hok]; apply ih; omega
          · rw [if_neg hok]
            cases err with
            | some e => simp
            | none =>
              dsimp only
              split
              · apply ih; omega
              · simp
              · rename_i hskip
                split_ifs at hskip
                exact absurd hskip (Match.skip_ne_noFuel _ _ _)
              · simp
    · rw [if_neg hp]; simp

/-- The function `filepath.Match` returns on every input: its result is the
result of the loop, never the default. -/
theorem Match_loop_isSome (pattern name : GoString) :
    Match.loop (pattern.length + 1) pattern name = some (Match pattern name) := by
  have h := Match_loop_ne_none _ pattern name (Nat.lt_succ_self _)
  unfold Match
  cases hl : Match.loop (pattern.length + 1) pattern name with
  | none => exact absurd hl h
  | some r => rfl

/-! ## Protection matcher: tests -/

/-- The cases of `TestIsProtected`, `TestIsProtected_InvalidPattern` and
`TestIsProtected_WildcardPrefix` (`internal/git_test.go`). -/
theorem isProtected_repository_tests :
    isProtected (str "main") [str "main", str "master"] = true ∧
    isProtected (str "release/v1.0") [str "release/*"] = true ∧
    isProtected (str "feature-x") [str "main", str "master"] = false ∧
    isProtected (str "main") [] = false ∧
    isProtected (str "test-branch") [str "[invalid"] = false ∧
    isProtected (str "hotfix/bug-123") [str "hotfix/*"] = true ∧
    isProtected (str "feature/x") [str "release/*"] = false := by
  decide

/-- Some cases of the test table of `filepath.Match` in the Go standard
library (`path/filepath/match_test.go`), run on the transcription. -/
theorem Match_library_tests :
    Match (str "a*b*c*d*e*/f") (str "axbxcxdxexxx/f") = (true, none) ∧
    Match (str "a*b*c*d*e*/f") (str "axbxcxdxe/xxx/f") = (false, none) ∧
    Match (str "a*b?c*x") (str "abxbbxdbxebxczzx") = (true, none) ∧
    Match (str "ab[^b-d]") (str "abc") = (false, none) ∧
    Match (str "ab[^e-g]") (str "abc") = (true, none) ∧
    Match (str "a\\*b") (str "a*b") = (true, none) ∧
    Match (str "a?b") (str "a☺b") = (true, none) ∧
    Match (str "a???b") (str "a☺b") = (false, none) ∧
    Match (str "[a-ζ]*") (str "α") = (true, none) ∧
    Match (str "*[a-ζ]") (str "A") = (false, none) ∧
    Match (str "a*b") (str "a/b") = (false, none) ∧
    Match (str "[\\]a]") (str "]") = (true, none) ∧
    Match (str "[x\\-]") (str "-") = (true, none) ∧
    Match (str "[]a]") (str "]") = (false, some GoError.ErrBadPattern) ∧
    Match (str "[x-]") (str "z") = (false, some GoError.ErrBadPattern) ∧
    Match (str "\\") (str "a") = (false, some GoError.ErrBadPattern) ∧
    Match (str "[a-b-c]") (str "a") = (false, some GoError.ErrBadPattern) ∧
    Match (str "[^bc") (str "a") = (false, some GoError.ErrBadPattern) ∧
    Match (str "a[") (str "x") = (false, some GoError.ErrBadPattern) ∧
    Match (str "a/b[") (str "x") = (false, some GoError.ErrBadPattern) ∧
    Match (str "*x") (str "xxx") = (true, none) := by
  decide

/-- Once a chunk matches nowhere, `filepath.Match` returns `(false, nil)`
without looking at what is left of the pattern: a malformed remainder is not
reported, and `isProtected` does not take its fallback. -/
theorem Match_remainder_unchecked :
    Match (str "a*[") (str "b") = (false, none) ∧
    Match (str "[a]*[") (str "[a]*[") = (false, none) ∧
    isProtected (str "[a]*[") [str "[a]*["] = false ∧
    Match (str "a*[") (str "ab") = (false, some GoError.ErrBadPattern) := by
  decide

/-! ## Protection matcher: claims -/

/-- Counterexample to C3 as stated: the pattern `feature/*[` is an invalid
glob (`filepath.Match` reports `ErrBadPattern` on the name `feature/x`) that
contains the star, and the name `feature/x` starts with `feature/`, the part
of the pattern before the star; yet `isProtected` is false, because only a
star at the very end of the pattern is stripped. -/
theorem isProtected_invalid_star_counterexample :
    (Match (str "feature/*[") (str "feature/x")).2 = some GoError.ErrBadPattern ∧
    containsStar (str "feature/*[") = true ∧
    (str "feature/*[").takeWhile (fun c => c ≠ 42) = str "feature/" ∧
    HasPrefix (str "feature/x") (str "feature/") = true ∧
    isProtected (str "feature/x") [str "feature/*["] = false := by
  decide

/-- C3 (amended): when `filepath.Match` reports a bad pattern for `p` on
`name`: if `p` contains a star, `isProtected name [p]` is true exactly when
`name` starts with `p` stripped of one trailing star (`p` itself when it does
not end in a star); if `p` contains no star, `isProtected name [p]` is
false. -/
theorem isProtected_invalid_pattern (name p : GoString) (h : (Match p name).2 ≠ none) :
    (containsStar p = true →
      (isProtected name [p] = true ↔ HasPrefix name (trimSuffixStar p) = true)) ∧
    (containsStar p = false → isProtected name [p] = false) := by
  rcases hm : Match p name with ⟨matched, _ | e⟩
  · rw [hm] at h
    exact absurd rfl h
  · constructor
    · intro hc
      simp [isProtected, hm, hc]
    · intro hc
      simp [isProtected, hm, hc]

/-- Witness for C3 (amended): the invalid pattern `[release*` protects
`[release-1` through the fallback, and the invalid pattern `[invalid` of
`TestIsProtected_InvalidPattern` protects nothing. -/
theorem isProtected_invalid_pattern_witness :
    (Match (str "[release*") (str "[release-1")).2 ≠ none ∧
    (isProtected (str "[release-1") [str "[release*"] = true ↔
      HasPrefix (str "[release-1") (trimSuffixStar (str "[release*")) = true) ∧
    HasPrefix (str "[release-1") (trimSuffixStar (str "[release*")) = true ∧
    isProtected (str "test-branch") [str "[invalid"] = false :=
  ⟨by decide,
   (isProtected_invalid_pattern (str "[release-1") (str "[release*") (by decide)).1 (by decide),
   by decide,
   (isProtected_invalid_pattern (str "test-branch") (str "[invalid") (by decide)).2 (by decide)⟩

/-- Counterexample to C4 as stated: `release/` has no glob metacharacter and
the name `release/v1/fix` starts with it, yet the pattern `release/*` does not
protect that name, because the star of `filepath.Match` does not match the
separator `/`. -/
theorem isProtected_literal_star_counterexample :
    (∀ c ∈ str "release/", isLiteralByte c) ∧
    HasPrefix (str "release/v1/fix") (str "release/") = true ∧
    isProtected (str "release/v1/fix") [str "release/" ++ str "*"] = false := by
  decide

/-- C4 (amended): for a literal `P` without glob metacharacters, the pattern
`P` followed by a star protects a name exactly when the name starts with `P`
and has no separator `/` after `P`; in particular it protects no name that
does not start with `P`. -/
theorem isProtected_literal_star (P name : GoString) (hP : ∀ c ∈ P, isLiteralByte c) :
    isProtected name [P ++ str "*"]
      = (HasPrefix name P && !(name.drop P.length).contains 47) := by
  have hstar : str "*" = [42] := by decide
  rw [hstar]
  simp only [isProtected, Match_literal_star P name hP]
  cases HasPrefix name P && !(name.drop P.length).contains 47 <;> rfl

/-- Witness for C4 (amended): the cases of `TestIsProtected_WildcardPrefix`. -/
theorem isProtected_literal_star_witness :
    isProtected (str "release/v1.0") [str "release/" ++ str "*"] = true ∧
    isProtected (str "hotfix/bug-123") [str "hotfix/" ++ str "*"] = true ∧
    isProtected (str "feature/x") [str "release/" ++ str "*"] = false :=
  ⟨(isProtected_literal_star (str "release/") (str "release/v1.0") (by decide)).trans
      (by decide),
   (isProtected_literal_star (str "hotfix/") (str "hotfix/bug-123") (by decide)).trans
      (by decide),
   (isProtected_literal_star (str "release/") (str "feature/x") (by decide)).trans
      (by decide)⟩

/-! ## Branch classifier: lemmas -/

theorem countP_eq_one_of_nodup (l : List GoString) (a : GoString) (hnd : l.Nodup)
    (ha : a ∈ l) : l.countP (fun n => n = a) = 1 := by
  induction l with
  | nil => cases ha
  | cons b l ih =>
    rw [List.nodup_cons] at hnd
    by_cases hba : b = a
    · subst hba
      have h0 : l.countP (fun n => decide (n = b)) = 0 := by
        rw [List.countP_eq_zero]
        intro x hx
        simp only [decide_eq_true_eq]
        rintro rfl
        exact hnd.1 hx
      simp [List.countP_cons, h0]
    · have hmem : a ∈ l := by
        rcases List.mem_cons.mp ha with h | h
        · exact absurd h.symm hba
        · exact h
      simp [List.countP_cons, hba, ih hnd.2 hmem]

section Classifier

variable {σ : Type}

theorem GitRepo.isMerged_err_iff (g : GitRepo σ) (w : σ) (name : GoString) :
    (g.isMerged w name).2 ≠ none ↔
      ∃ e, g.repo.runMergeBase w name g.defaultBranch = some e ∧ e ≠ GoError.ExitError 1 := by
  unfold GitRepo.isMerged
  cases hrun : g.repo.runMergeBase w name g.defaultBranch with
  | none => simp
  | some e =>
    cases e <;> simp
    case ExitError code =>
      by_cases hc : code = 1 <;> simp [hc]

/-- The iteration only appends: the slice it leaves is the slice it started
from followed by branches that are not the default branch, one per reference
other than the default branch when no error stops it. -/
theorem GitRepo.ListBranches.forEach_spec (g : GitRepo σ) (w : σ) (thr : Time)
    (pats : List GoString) (refs : List Reference) :
    ∀ acc : List Branch, ∃ l : List Branch,
      (GitRepo.ListBranches.forEach g w thr pats refs acc).1 = acc ++ l ∧
      (∀ b ∈ l, b.Name ≠ g.defaultBranch) ∧
      ((GitRepo.ListBranches.forEach g w thr pats refs acc).2 = none →
        l.map Branch.Name = (refs.map Reference.Name).filter (fun n => n ≠ g.defaultBranch)) := by
  induction refs with
  | nil => intro acc; exact ⟨[], by simp [GitRepo.ListBranches.forEach]⟩
  | cons r refs ih =>
    intro acc
    by_cases hd : r.Name = g.defaultBranch
    · obtain ⟨l, h1, h2, h3⟩ := ih acc
      refine ⟨l, ?_, h2, ?_⟩
      · simpa [GitRepo.ListBranches.forEach, hd] using h1
      · intro he
        simp only [GitRepo.ListBranches.forEach, hd, if_true] at he
        simpa [hd] using h3 he
    · cases hc : g.repo.CommitObject w r.Hash with
      | error e => exact ⟨[], by simp [GitRepo.ListBranches.forEach, hd, hc]⟩
      | ok commit =>
        rcases hm : g.isMerged w r.Name with ⟨merged, _ | e⟩
        · obtain ⟨l, h1, h2, h3⟩ := ih (acc ++ [Branch.mk r.Name merged
            (decide (commit.CommitterWhen < thr)) commit.CommitterWhen (isProtected r.Name pats)])
          refine ⟨Branch.mk r.Name merged (decide (commit.CommitterWhen < thr))
            commit.CommitterWhen (isProtected r.Name pats) :: l, ?_, ?_, ?_⟩
          · simpa [GitRepo.ListBranches.forEach, hd, hc, hm] using h1
          · intro b hb
            rcases List.mem_cons.mp hb with rfl | hb
            · exact hd
            · exact h2 b hb
          · intro he
            simp only [GitRepo.ListBranches.forEach, hd, hc, hm, if_false] at he
            simp [hd, h3 he]
        · exact ⟨[], by simp [GitRepo.ListBranches.forEach, hd, hc, hm]⟩

/-- An iteration that runs through `pre` without error continues on what
follows `pre` from the slice built over `pre`. -/
theorem GitRepo.ListBranches.forEach_append (g : GitRepo σ) (w : σ) (thr : Time)
    (pats : List GoString) (pre rest : List Reference) :
    ∀ acc : List Branch, (GitRepo.ListBranches.forEach g w thr pats pre acc).2 = none →
      GitRepo.ListBranches.forEach g w thr pats (pre ++ rest) acc
        = GitRepo.ListBranches.forEach g w thr pats rest
            (GitRepo.ListBranches.forEach g w thr pats pre acc).1 := by
  induction pre with
  | nil => intro acc _; simp [GitRepo.ListBranches.forEach]
  | cons r pre ih =>
    intro acc he
    by_cases hd : r.Name = g.defaultBranch
    · simp only [GitRepo.ListBranches.forEach, hd, if_true, List.cons_append] at he ⊢
      exact ih acc he
    · cases hc : g.repo.CommitObject w r.Hash with
      | error e => simp [GitRepo.ListBranches.forEach, hd, hc] at he
      | ok commit =>
        rcases hm : g.isMerged w r.Name with ⟨merged, _ | e⟩
        · simp only [GitRepo.ListBranches.forEach, hd, hc, hm, if_false, List.cons_append] at he ⊢
          exact ih _ he
        · simp [GitRepo.ListBranches.forEach, hd, hc, hm] at he

theorem ListBranches_list_ne_default (g : GitRepo σ) (w : σ) (staleDays : Int)
    (pats : List GoString) :
    ∀ b ∈ (g.ListBranches w staleDays pats).1, b.Name ≠ g.defaultBranch := by
  unfold GitRepo.ListBranches
  cases hb : g.repo.Branches w with
  | error e => simp
  | ok refs0 =>
    obtain ⟨l, h1, h2, _⟩ := GitRepo.ListBranches.forEach_spec g w
      (g.repo.AddDate (g.repo.Now w) 0 0 (-staleDays)) pats refs0 []
    simp only [List.nil_append] at h1
    simp only [h1]
    exact h2

end Classifier

/-! ## Deletion loop: lemmas -/

section DeletionLoop

variable {σ : Type}

/-- One iteration of the deletion loop makes one call of `DeleteBranch`, with
outcome `o`; it calls `DeleteRemoteBranch` exactly when `deleteRemote` is set
and `o` is a success; it sets `hasErrors` exactly when `o` is a failure and
counts a success otherwise. -/
theorem runCleanup.loopBody_spec (git : GitRepo σ) (verbose deleteRemote : Bool)
    (st : LoopState σ) (b : Branch) :
    ∃ o : Option GoError,
      localCalls (runCleanup.loopBody git verbose deleteRemote st b).calls
        = localCalls st.calls ++ [(b.Name, o)] ∧
      remoteCalls (runCleanup.loopBody git verbose deleteRemote st b).calls
        = remoteCalls st.calls ++ (if deleteRemote = true ∧ o = none then [b.Name] else []) ∧
      (runCleanup.loopBody git verbose deleteRemote st b).hasErrors
        = (st.hasErrors || o.isSome) ∧
      (runCleanup.loopBody git verbose deleteRemote st b).successCount
        = st.successCount + (if o = none then 1 else 0) := by
  unfold runCleanup.loopBody
  rcases hl : git.DeleteBranch st.world b.Name with ⟨w1, _ | e⟩
  · refine ⟨none, ?_⟩
    cases deleteRemote
    · simp [hl, localCalls, remoteCalls, List.filterMap_append]
    · rcases hr : git.DeleteRemoteBranch w1 b.Name with ⟨w2, _ | e2⟩ <;>
        simp [hl, hr, localCalls, remoteCalls, List.filterMap_append]
  · refine ⟨some e, ?_⟩
    simp [hl, localCalls, remoteCalls, List.filterMap_append]

/-- The names kept for the remote step: those of the branches whose local
deletion succeeded. -/
theorem runCleanup.loop_spec (git : GitRepo σ) (verbose deleteRemote : Bool)
    (sel : List Branch) :
    ∀ st : LoopState σ, ∃ outs : List (Option GoError), outs.length = sel.length ∧
      localCalls (sel.foldl (runCleanup.loopBody git verbose deleteRemote) st).calls
        = localCalls st.calls ++ (sel.map Branch.Name).zip outs ∧
      remoteCalls (sel.foldl (runCleanup.loopBody git verbose deleteRemote) st).calls
        = remoteCalls st.calls ++
          (if deleteRemote = true then
            (((sel.map Branch.Name).zip outs).filter (fun c => c.2 = none)).map Prod.fst
           else []) ∧
      (sel.foldl (runCleanup.loopBody git verbose deleteRemote) st).hasErrors
        = (st.hasErrors || outs.any Option.isSome) ∧
      (sel.foldl (runCleanup.loopBody git verbose deleteRemote) st).successCount
        = st.successCount + outs.countP (fun o => o = none) := by
  induction sel with
  | nil => intro st; exact ⟨[], by simp⟩
  | cons b sel ih =>
    intro st
    obtain ⟨o, hb1, hb2, hb3, hb4⟩ := runCleanup.loopBody_spec git verbose deleteRemote st b
    obtain ⟨outs, hlen, h1, h2, h3, h4⟩ := ih (runCleanup.loopBody git verbose deleteRemote st b)
    refine ⟨o :: outs, by simp [hlen], ?_, ?_, ?_, ?_⟩
    · simp [List.foldl_cons, h1, hb1]
    · rw [List.foldl_cons, h2, hb2]
      cases deleteRemote
      · simp
      · cases o <;> simp [List.filter_cons]
    · rw [List.foldl_cons, h3, hb3]
      simp [Bool.or_assoc]
    · rw [List.foldl_cons, h4, hb4]
      cases o
      · simp [List.countP_cons]; omega
      · simp [List.countP_cons]

theorem zip_fst_of_length {α β : Type} (l : List α) (outs : List β)
    (h : outs.length = l.length) : (l.zip outs).map Prod.fst = l := by
  rw [List.map_fst_zip]
  omega

theorem zip_snd_of_length {α β : Type} (l : List α) (outs : List β)
    (h : outs.length = l.length) : (l.zip outs).map Prod.snd = outs := by
  rw [List.map_snd_zip]
  omega

theorem not_mem_take_append_drop (l : List GoString) (k : Nat) (a : GoString)
    (ha : l[k]? = some a) (hnd : l.Nodup) : a ∉ l.take k ++ l.drop (k + 1) := by
  obtain ⟨hk, rfl⟩ := List.getElem?_eq_some_iff.mp ha
  have hsplit : l = l.take k ++ l[k] :: l.drop (k + 1) := by
    rw [← List.drop_eq_getElem_cons hk, List.take_append_drop]
  rw [hsplit, List.nodup_middle, List.nodup_cons] at hnd
  exact hnd.1

theorem countP_none_replicate (n : Nat) :
    (List.replicate n (none : Option GoError)).countP (fun o => o = none) = n := by
  induction n with
  | zero => simp
  | succ n ih => simp [List.replicate_succ, List.countP_cons, ih]

theorem zip_filter_all_none (names : List GoString) :
    ∀ m : Nat, names.length = m →
      (((names.zip (List.replicate m (none : Option GoError))).filter
        (fun c => c.2 = none)).map Prod.fst) = names := by
  induction names with
  | nil => intro m _; simp
  | cons n names ih =>
    intro m hm
    obtain ⟨m1, rfl⟩ : ∃ m1, m = m1 + 1 := ⟨names.length, by simpa using hm.symm⟩
    simp only [List.length_cons, Nat.add_right_cancel_iff] at hm
    simp [List.replicate_succ, List.filter_cons, ih m1 hm]

theorem zip_filter_one_failure (e : GoError) (m : Nat) :
    ∀ (k : Nat) (names : List GoString), names.length = k + 1 + m →
      (((names.zip (List.replicate k none ++ some e :: List.replicate m none)).filter
        (fun c => c.2 = none)).map Prod.fst) = names.take k ++ names.drop (k + 1) := by
  intro k
  induction k with
  | zero =>
    intro names hlen
    cases names with
    | nil => simp only [List.length_nil] at hlen; omega
    | cons n names =>
      simp only [List.length_cons] at hlen
      simp [List.filter_cons, zip_filter_all_none names m (by omega)]
  | succ k ih =>
    intro names hlen
    cases names with
    | nil => simp only [List.length_nil] at hlen; omega
    | cons n names =>
      simp only [List.length_cons] at hlen
      simp [List.replicate_succ, List.filter_cons, ih names (by omega)]

/-- The deletion part of `runCleanup` in terms of the outcomes `outs` of its
calls of `DeleteBranch`, one per selected branch. -/
theorem runCleanup.deleteSelected_spec (git : GitRepo σ) (verbose deleteRemote : Bool)
    (w : σ) (selected : List Branch) :
    ∃ outs : List (Option GoError), outs.length = selected.length ∧
      localCalls (runCleanup.deleteSelected git verbose deleteRemote w selected).calls
        = (selected.map Branch.Name).zip outs ∧
      remoteCalls (runCleanup.deleteSelected git verbose deleteRemote w selected).calls
        = (if deleteRemote = true then
            (((selected.map Branch.Name).zip outs).filter (fun c => c.2 = none)).map Prod.fst
           else []) ∧
      (runCleanup.deleteSelected git verbose deleteRemote w selected).err
        = (if outs.any Option.isSome then some (.New "some branches failed to delete")
           else none) ∧
      (runCleanup.deleteSelected git verbose deleteRemote w selected).out.getLast?
        = some (Line.summary (outs.countP (fun o => o = none)) selected.length) := by
  obtain ⟨outs, hlen, h1, h2, h3, h4⟩ := runCleanup.loop_spec git verbose deleteRemote selected
    { world := w, hasErrors := false, successCount := 0, calls := [], out := [] }
  refine ⟨outs, hlen, ?_, ?_, ?_, ?_⟩
  · simpa [runCleanup.deleteSelected, localCalls] using h1
  · simpa [runCleanup.deleteSelected, remoteCalls] using h2
  · simp only [runCleanup.deleteSelected, h3, Bool.false_or]
  · simp [runCleanup.deleteSelected, h4]

end DeletionLoop

/-! ## Deletion loop: claims -/

/-- C5: the deletion part of `runCleanup` returns an error if and only if at
least one call of `DeleteBranch` returned an error; the outcomes of
`DeleteRemoteBranch` do not enter: when every local deletion succeeds the
result is `nil`, whatever the remote deletions returned. -/
theorem deleteSelected_fails_iff_local_failure {σ : Type} (git : GitRepo σ)
    (verbose deleteRemote : Bool) (w : σ) (selected : List Branch) :
    ((runCleanup.deleteSelected git verbose deleteRemote w selected).err ≠ none ↔
      ∃ c ∈ localCalls (runCleanup.deleteSelected git verbose deleteRemote w selected).calls,
        c.2 ≠ none) ∧
    ((∀ c ∈ localCalls (runCleanup.deleteSelected git verbose deleteRemote w selected).calls,
        c.2 = none) →
      (runCleanup.deleteSelected git verbose deleteRemote w selected).err = none) := by
  obtain ⟨outs, hlen, h1, _, h3, _⟩ :=
    runCleanup.deleteSelected_spec git verbose deleteRemote w selected
  have hsnd : ∀ o, (∃ c ∈ (selected.map Branch.Name).zip outs, c.2 = o) ↔ o ∈ outs := by
    intro o
    have hz := zip_snd_of_length (selected.map Branch.Name) outs (by simpa using hlen)
    constructor
    · rintro ⟨c, hc, rfl⟩
      rw [← hz]
      exact List.mem_map_of_mem _ hc
    · intro ho
      rw [← hz] at ho
      obtain ⟨c, hc, h⟩ := List.mem_map.mp ho
      exact ⟨c, hc, h⟩
  have hiff : (runCleanup.deleteSelected git verbose deleteRemote w selected).err ≠ none ↔
      ∃ c ∈ localCalls (runCleanup.deleteSelected git verbose deleteRemote w selected).calls,
        c.2 ≠ none := by
    rw [h1, h3]
    constructor
    · intro h
      have hany : outs.any Option.isSome = true := by
        by_contra hc
        simp [hc] at h
      obtain ⟨o, ho, hsome⟩ := List.any_eq_true.mp hany
      obtain ⟨c, hc, hco⟩ := (hsnd o).mpr ho
      refine ⟨c, hc, ?_⟩
      rw [hco]
      intro hn
      rw [hn] at hsome
      exact absurd hsome (by decide)
    · rintro ⟨c, hc, hne⟩
      have ho : c.2 ∈ outs := (hsnd c.2).mp ⟨c, hc, rfl⟩
      have hany : outs.any Option.isSome = true :=
        List.any_eq_true.mpr ⟨c.2, ho, Option.isSome_iff_ne_none.mpr hne⟩
      simp [hany]
  refine ⟨hiff, ?_⟩
  intro hall
  by_contra hne
  obtain ⟨c, hc, hcne⟩ := hiff.mp hne
  exact hcne (hall c hc)

/-- Witness for C5: `feature-a` is deleted locally, pushing the deletion
fails, and the result is `nil`. -/
theorem deleteSelected_fails_iff_local_failure_witness :
    (runCleanup.deleteSelected (exampleGit (str "main") true) false true exampleRefs
        [⟨str "feature-a", true, true, 60, false⟩]).calls
      = [Call.DeleteBranch (str "feature-a") none,
         Call.DeleteRemoteBranch (str "feature-a")
          (some (.Errorf "failed to delete remote branch: %w\nOutput: %s" (.ExitError 1)
            [str "error: unable to delete"]))] ∧
    (runCleanup.deleteSelected (exampleGit (str "main") true) false true exampleRefs
        [⟨str "feature-a", true, true, 60, false⟩]).err = none :=
  ⟨by decide,
   (deleteSelected_fails_iff_local_failure (exampleGit (str "main") true) false true
      exampleRefs [⟨str "feature-a", true, true, 60, false⟩]).2 (by decide)⟩

/-- C6: when exactly one call of `DeleteBranch` fails, the one for the
selected branch of index `k` (counted from 0), the deletion part of
`runCleanup` calls `DeleteBranch` on every selected branch in the order
supplied, calls `DeleteRemoteBranch` on no branch when `deleteRemote` is unset
and on every selected branch but the one of index `k` when it is set, writes
`Deleted N-1 of N branches`, and returns an error; so, the selected names
being distinct, `DeleteRemoteBranch` is never called on the branch of index
`k`. -/
theorem deleteSelected_one_local_failure {σ : Type} (git : GitRepo σ)
    (verbose deleteRemote : Bool) (w : σ) (selected : List Branch) (k : Nat) (e : GoError)
    (hfail : (localCalls
        (runCleanup.deleteSelected git verbose deleteRemote w selected).calls).map Prod.snd
      = List.replicate k none ++ some e :: List.replicate (selected.length - 1 - k) none) :
    k < selected.length ∧
    (localCalls (runCleanup.deleteSelected git verbose deleteRemote w selected).calls).map
        Prod.fst = selected.map Branch.Name ∧
    remoteCalls (runCleanup.deleteSelected git verbose deleteRemote w selected).calls
      = (if deleteRemote = true then (selected.take k ++ selected.drop (k + 1)).map Branch.Name
         else []) ∧
    (runCleanup.deleteSelected git verbose deleteRemote w selected).out.getLast?
      = some (Line.summary (selected.length - 1) selected.length) ∧
    (runCleanup.deleteSelected git verbose deleteRemote w selected).err ≠ none ∧
    ((selected.map Branch.Name).Nodup → ∀ name, (selected.map Branch.Name)[k]? = some name →
      name ∉ remoteCalls
        (runCleanup.deleteSelected git verbose deleteRemote w selected).calls) := by
  obtain ⟨outs, hlen, h1, h2, h3, h4⟩ :=
    runCleanup.deleteSelected_spec git verbose deleteRemote w selected
  have hlen1 : outs.length = (selected.map Branch.Name).length := by simpa using hlen
  rw [h1, zip_snd_of_length _ _ hlen1] at hfail
  have hN : k + 1 + (selected.length - 1 - k) = selected.length := by
    have := congrArg List.length hfail
    simp at this
    omega
  have hk : k < selected.length := by omega
  have hremote : remoteCalls
      (runCleanup.deleteSelected git verbose deleteRemote w selected).calls
      = (if deleteRemote = true then
          (selected.map Branch.Name).take k ++ (selected.map Branch.Name).drop (k + 1)
         else []) := by
    rw [h2, hfail]
    cases deleteRemote
    · simp
    · simp only [if_true]
      rw [zip_filter_one_failure e _ k _ (by simpa using hN.symm)]
  refine ⟨hk, ?_, ?_, ?_, ?_, ?_⟩
  · rw [h1, zip_fst_of_length _ _ hlen1]
  · rw [hremote]
    simp [List.map_take, List.map_drop]
  · rw [h4, hfail]
    congr 2
    simp only [List.countP_append, List.countP_cons, countP_none_replicate]
    simp
    omega
  · rw [h3, hfail]
    simp
  · intro hnd name hname
    rw [hremote]
    cases deleteRemote
    · simp
    · simpa using not_mem_take_append_drop _ k name hname hnd

/-- Witness for C6: HEAD is on `feature-b`, so that of the three selected
branches the second one (index 1) cannot be deleted. -/
theorem deleteSelected_one_local_failure_witness :
    1 < 3 ∧
    (localCalls (runCleanup.deleteSelected (exampleGit (str "feature-b") false) false true
        exampleRefs
        [⟨str "feature-a", true, true, 60, false⟩, ⟨str "feature-b", false, false, 95, false⟩,
         ⟨str "release/1.0", false, true, 10, false⟩]).calls).map Prod.fst
      = [str "feature-a", str "feature-b", str "release/1.0"] ∧
    remoteCalls (runCleanup.deleteSelected (exampleGit (str "feature-b") false) false true
        exampleRefs
        [⟨str "feature-a", true, true, 60, false⟩, ⟨str "feature-b", false, false, 95, false⟩,
         ⟨str "release/1.0", false, true, 10, false⟩]).calls
      = [str "feature-a", str "release/1.0"] ∧
    (runCleanup.deleteSelected (exampleGit (str "feature-b") false) false true exampleRefs
        [⟨str "feature-a", true, true, 60, false⟩, ⟨str "feature-b", false, false, 95, false⟩,
         ⟨str "release/1.0", false, true, 10, false⟩]).out.getLast?
      = some (Line.summary 2 3) ∧
    (runCleanup.deleteSelected (exampleGit (str "feature-b") false) false true exampleRefs
        [⟨str "feature-a", true, true, 60, false⟩, ⟨str "feature-b", false, false, 95, false⟩,
         ⟨str "release/1.0", false, true, 10, false⟩]).err ≠ none ∧
    str "feature-b" ∉ remoteCalls
      (runCleanup.deleteSelected (exampleGit (str "feature-b") false) false true exampleRefs
        [⟨str "feature-a", true, true, 60, false⟩, ⟨str "feature-b", false, false, 95, false⟩,
         ⟨str "release/1.0", false, true, 10, false⟩]).calls :=
  have h := deleteSelected_one_local_failure (exampleGit (str "feature-b") false) false true
    exampleRefs
    [⟨str "feature-a", true, true, 60, false⟩, ⟨str "feature-b", false, false, 95, false⟩,
     ⟨str "release/1.0", false, true, 10, false⟩] 1
    (.Errorf "%w: '%s'" .ErrCurrentBranch [str "feature-b"]) (by decide)
  ⟨h.1, h.2.1, h.2.2.1, h.2.2.2.1, h.2.2.2.2.1,
    h.2.2.2.2.2 (by decide) (str "feature-b") (by decide)⟩

/-! ## Guarded deletion and branch classifier: claims -/

/-- C7: when HEAD resolves to the branch `c`, `DeleteBranch c` returns an
error for which `errors.Is(err, ErrCurrentBranch)` holds, and leaves the world
as it was: the branch references after the call are those before it. -/
theorem DeleteBranch_current_branch {σ : Type} (g : GitRepo σ) (w : σ) (c : GoString)
    (h : g.repo.Head w = .ok c) :
    ∃ err, g.DeleteBranch w c = (w, some err) ∧
      errorsIs err GoError.ErrCurrentBranch = true ∧
      (g.DeleteBranch w c).1 = w ∧
      g.repo.Branches (g.DeleteBranch w c).1 = g.repo.Branches w := by
  refine ⟨.Errorf "%w: '%s'" .ErrCurrentBranch [c], ?_, ?_⟩
  · simp [GitRepo.DeleteBranch, h]
  · simp [GitRepo.DeleteBranch, h, errorsIs]

/-- Witness for C7: HEAD on `feature-a`, and `feature-a` is asked to be
deleted. -/
theorem DeleteBranch_current_branch_witness :
    ∃ err, (exampleGit (str "feature-a") false).DeleteBranch exampleRefs (str "feature-a")
        = (exampleRefs, some err) ∧
      errorsIs err GoError.ErrCurrentBranch = true ∧
      ((exampleGit (str "feature-a") false).DeleteBranch exampleRefs (str "feature-a")).1
        = exampleRefs ∧
      (exampleGit (str "feature-a") false).repo.Branches
          ((exampleGit (str "feature-a") false).DeleteBranch exampleRefs (str "feature-a")).1
        = (exampleGit (str "feature-a") false).repo.Branches exampleRefs :=
  DeleteBranch_current_branch (exampleGit (str "feature-a") false) exampleRefs
    (str "feature-a") rfl

/-- C8: no branch returned by `ListBranches` has the name of the default
branch; and when `ListBranches` returns no error, the names it returns are the
names of the branch references other than the default branch, in iteration
order, so that each of them appears exactly once (the references of a
repository having distinct names). -/
theorem ListBranches_excludes_default {σ : Type} (g : GitRepo σ) (w : σ) (staleDays : Int)
    (pats : List GoString) :
    (∀ b ∈ (g.ListBranches w staleDays pats).1, b.Name ≠ g.defaultBranch) ∧
    (∀ refs, g.repo.Branches w = .ok refs → (g.ListBranches w staleDays pats).2 = none →
      (g.ListBranches w staleDays pats).1.map Branch.Name
        = (refs.map Reference.Name).filter (fun n => n ≠ g.defaultBranch) ∧
      ((refs.map Reference.Name).Nodup → ∀ r ∈ refs, r.Name ≠ g.defaultBranch →
        ((g.ListBranches w staleDays pats).1.map Branch.Name).countP (fun n => n = r.Name)
          = 1)) := by
  unfold GitRepo.ListBranches
  cases hb : g.repo.Branches w with
  | error e => simp
  | ok refs0 =>
    obtain ⟨l, h1, h2, h3⟩ := GitRepo.ListBranches.forEach_spec g w
      (g.repo.AddDate (g.repo.Now w) 0 0 (-staleDays)) pats refs0 []
    simp only [List.nil_append] at h1
    simp only [h1]
    refine ⟨h2, ?_⟩
    intro refs hrefs he
    cases hrefs
    have hnames := h3 he
    refine ⟨hnames, ?_⟩
    intro hnd r hr hne
    rw [hnames]
    apply countP_eq_one_of_nodup _ _ (hnd.filter _)
    exact List.mem_filter.mpr ⟨List.mem_map_of_mem _ hr, by simpa using hne⟩

/-- Witness for C8: the example repository, whose references have distinct
names, classifies without error. -/
theorem ListBranches_excludes_default_witness :
    (∀ b ∈ ((exampleGit (str "main") false).ListBranches exampleRefs 30 [str "release/*"]).1,
      b.Name ≠ str "main") ∧
    ((exampleGit (str "main") false).ListBranches exampleRefs 30 [str "release/*"]).1.map
        Branch.Name = [str "feature-a", str "feature-b", str "release/1.0"] ∧
    (((exampleGit (str "main") false).ListBranches exampleRefs 30 [str "release/*"]).1.map
        Branch.Name).countP (fun n => n = str "feature-b") = 1 :=
  have h := ListBranches_excludes_default (exampleGit (str "main") false) exampleRefs 30
    [str "release/*"]
  ⟨h.1, (h.2 exampleRefs rfl (by decide)).1.trans (by decide),
    (h.2 exampleRefs rfl (by decide)).2 (by decide) ⟨str "feature-b", 95⟩ (by decide)
      (by decide)⟩

/-- Counterexample to C9 as stated: in the example repository with HEAD on
`feature-a` (default branch `main`), the checked-out branch `feature-a` is in
the output of `ListBranches` and in the candidates of `FilterBranches`. -/
theorem ListBranches_lists_current_counterexample :
    (exampleGit (str "feature-a") false).repo.Head exampleRefs = .ok (str "feature-a") ∧
    ((exampleGit (str "feature-a") false).ListBranches exampleRefs 30 [str "release/*"]).2
      = none ∧
    str "feature-a" ∈
      ((exampleGit (str "feature-a") false).ListBranches exampleRefs 30
        [str "release/*"]).1.map Branch.Name ∧
    (FilterBranches
      ((exampleGit (str "feature-a") false).ListBranches exampleRefs 30 [str "release/*"]).1
      false false).map Branch.Name = [str "feature-a"] :=
  ⟨rfl, by decide, by decide, by decide⟩

/-- C9 (amended): the default branch never appears in the output of
`ListBranches`, nor among the candidates that `FilterBranches` keeps of it,
whatever the flags; so the checked-out branch `c` appears in neither when it
is the default branch. -/
theorem ListBranches_excludes_current_when_default {σ : Type} (g : GitRepo σ) (w : σ)
    (staleDays : Int) (pats : List GoString) (mergedOnly staleOnly : Bool) (c : GoString)
    (hhead : g.repo.Head w = .ok c) (hdefault : c = g.defaultBranch) :
    g.repo.Head w = .ok c ∧
    (∀ b ∈ (g.ListBranches w staleDays pats).1, b.Name ≠ c) ∧
    (∀ b ∈ FilterBranches (g.ListBranches w staleDays pats).1 mergedOnly staleOnly,
      b.Name ≠ c) := by
  subst hdefault
  have h := (ListBranches_list_ne_default g w staleDays pats)
  refine ⟨hhead, h, ?_⟩
  intro b hb
  rw [FilterBranches.eq_filter] at hb
  exact h b (List.mem_filter.mp hb).1

/-- Witness for C9 (amended): HEAD on the default branch `main`. -/
theorem ListBranches_excludes_current_when_default_witness :
    (exampleGit (str "main") false).repo.Head exampleRefs = .ok (str "main") ∧
    (∀ b ∈ ((exampleGit (str "main") false).ListBranches exampleRefs 30 [str "release/*"]).1,
      b.Name ≠ str "main") ∧
    (∀ b ∈ FilterBranches
        ((exampleGit (str "main") false).ListBranches exampleRefs 30 [str "release/*"]).1
        false false, b.Name ≠ str "main") :=
  ListBranches_excludes_current_when_default (exampleGit (str "main") false) exampleRefs 30
    [str "release/*"] false false (str "main") rfl rfl

/-- Counterexample to C10 as stated: with `feature-a` classified before a
reference whose commit cannot be read, and before a branch whose ancestry
query exits with status 128, `ListBranches` returns a non-nil error together
with the non-empty list of the branches classified so far. -/
theorem ListBranches_keeps_classified_counterexample :
    (exampleGit (str "main") false).ListBranches
        [⟨str "main", 99⟩, ⟨str "feature-a", 60⟩, ⟨str "broken", 0⟩, ⟨str "feature-b", 95⟩]
        30 [] =
      ([⟨str "feature-a", true, true, 60, false⟩], some (.external "object not found")) ∧
    (exampleGit (str "main") false).ListBranches
        [⟨str "main", 99⟩, ⟨str "feature-a", 60⟩, ⟨str "odd", 50⟩] 30 [] =
      ([⟨str "feature-a", true, true, 60, false⟩],
        some (.Errorf "failed to check merge status: %w" (.ExitError 128) [])) := by
  decide

/-- C10 (amended): when the references are `pre`, then `r`, then `post`,
the references of `pre` are classified without failure, `r` is not the default
branch, and reading the tip commit of `r` fails or its ancestry query fails
(`git merge-base` cannot be run or exits with a status other than 0 and 1),
`ListBranches` returns a non-nil error, and next to it the branches classified
before `r`, one per reference of `pre` other than the default branch, in
order: the list is empty only when no branch was classified before the
failure. -/
theorem ListBranches_failure {σ : Type} (g : GitRepo σ) (w : σ) (staleDays : Int)
    (pats : List GoString) (pre post : List Reference) (r : Reference)
    (hrefs : g.repo.Branches w = .ok (pre ++ r :: post))
    (hpre : (GitRepo.ListBranches.forEach g w (g.repo.AddDate (g.repo.Now w) 0 0 (-staleDays))
      pats pre []).2 = none)
    (hr : r.Name ≠ g.defaultBranch)
    (hfail : (∃ e, g.repo.CommitObject w r.Hash = .error e) ∨
      (∃ e, g.repo.runMergeBase w r.Name g.defaultBranch = some e ∧ e ≠ GoError.ExitError 1)) :
    (g.ListBranches w staleDays pats).2 ≠ none ∧
    (g.ListBranches w staleDays pats).1
      = (GitRepo.ListBranches.forEach g w (g.repo.AddDate (g.repo.Now w) 0 0 (-staleDays))
          pats pre []).1 ∧
    (g.ListBranches w staleDays pats).1.map Branch.Name
      = (pre.map Reference.Name).filter (fun n => n ≠ g.defaultBranch) := by
  obtain ⟨l, h1, _, h3⟩ := GitRepo.ListBranches.forEach_spec g w
    (g.repo.AddDate (g.repo.Now w) 0 0 (-staleDays)) pats pre []
  have hnames := h3 hpre
  simp only [List.nil_append] at h1
  unfold GitRepo.ListBranches
  simp only [hrefs]
  rw [GitRepo.ListBranches.forEach_append g w _ pats pre (r :: post) [] hpre, h1]
  cases hc : g.repo.CommitObject w r.Hash with
  | error e => simp [GitRepo.ListBranches.forEach, hr, hc, hnames]
  | ok commit =>
    have hm : (g.isMerged w r.Name).2 ≠ none := by
      rw [GitRepo.isMerged_err_iff]
      rcases hfail with ⟨e, he⟩ | hm
      · rw [hc] at he; cases he
      · exact hm
    rcases hmr : g.isMerged w r.Name with ⟨merged, _ | e⟩
    · rw [hmr] at hm; exact absurd rfl hm
    · simp [GitRepo.ListBranches.forEach, hr, hc, hmr, hnames]

/-- Witness for C10 (amended): the unreadable commit of `broken` comes after
`main` and `feature-a`. -/
theorem ListBranches_failure_witness :
    ((exampleGit (str "main") false).ListBranches
        [⟨str "main", 99⟩, ⟨str "feature-a", 60⟩, ⟨str "broken", 0⟩, ⟨str "feature-b", 95⟩]
        30 []).2 ≠ none ∧
    ((exampleGit (str "main") false).ListBranches
        [⟨str "main", 99⟩, ⟨str "feature-a", 60⟩, ⟨str "broken", 0⟩, ⟨str "feature-b", 95⟩]
        30 []).1.map Branch.Name = [str "feature-a"] :=
  have h := ListBranches_failure (exampleGit (str "main") false)
    [⟨str "main", 99⟩, ⟨str "feature-a", 60⟩, ⟨str "broken", 0⟩, ⟨str "feature-b", 95⟩]
    30 [] [⟨str "main", 99⟩, ⟨str "feature-a", 60⟩] [⟨str "feature-b", 95⟩] ⟨str "broken", 0⟩
    rfl (by decide) (by decide) (Or.inl ⟨.external "object not found", rfl⟩)
  ⟨h.1, h.2.2.trans (by decide)⟩

/-! ## Filter engine: both flags -/

theorem FilterBranches.keeps_both (b : Branch) (h : FilterBranches.keeps true true b = true) :
    FilterBranches.keeps true false b = true ∧ FilterBranches.keeps false true b = true := by
  unfold FilterBranches.keeps at *
  cases hp : b.Protected <;> cases hm : b.IsMerged <;> cases hs : b.IsStale <;>
    simp [hp, hm, hs] at h ⊢

/-- C16: the result of `FilterBranches` with both flags set is a subsequence
of the merged-only result and of the stale-only result; so every branch of it
is in both of them. -/
theorem FilterBranches_both_flags_subset (B : List Branch) :
    List.Sublist (FilterBranches B true true) (FilterBranches B true false) ∧
    List.Sublist (FilterBranches B true true) (FilterBranches B false true) ∧
    (∀ b ∈ FilterBranches B true true,
      b ∈ FilterBranches B true false ∧ b ∈ FilterBranches B false true) := by
  have h1 : List.Sublist (FilterBranches B true true) (FilterBranches B true false) := by
    simp only [FilterBranches.eq_filter]
    exact List.monotone_filter_right B (fun b hb => (FilterBranches.keeps_both b hb).1)
  have h2 : List.Sublist (FilterBranches B true true) (FilterBranches B false true) := by
    simp only [FilterBranches.eq_filter]
    exact List.monotone_filter_right B (fun b hb => (FilterBranches.keeps_both b hb).2)
  exact ⟨h1, h2, fun b hb => ⟨h1.subset hb, h2.subset hb⟩⟩

/-- Witness for C16: the list of `TestFilterBranches_BothFilters`, whose
branch `both` is in the three results. -/
theorem FilterBranches_both_flags_subset_witness :
    (⟨str "both", true, true, 0, false⟩ : Branch) ∈ FilterBranches
        [⟨str "merged-only", true, false, 0, false⟩, ⟨str "stale-only", false, true, 0, false⟩,
         ⟨str "both", true, true, 0, false⟩, ⟨str "neither", false, false, 0, false⟩]
        true false ∧
    (⟨str "both", true, true, 0, false⟩ : Branch) ∈ FilterBranches
        [⟨str "merged-only", true, false, 0, false⟩, ⟨str "stale-only", false, true, 0, false⟩,
         ⟨str "both", true, true, 0, false⟩, ⟨str "neither", false, false, 0, false⟩]
        false true :=
  (FilterBranches_both_flags_subset
    [⟨str "merged-only", true, false, 0, false⟩, ⟨str "stale-only", false, true, 0, false⟩,
     ⟨str "both", true, true, 0, false⟩, ⟨str "neither", false, false, 0, false⟩]).2.2
    ⟨str "both", true, true, 0, false⟩ (by decide)

/-! ## Branch classifier: staleness -/

/-- Every branch that the iteration appends is the classification of one of
the references: its name, its committer timestamp, and the comparison of that
timestamp with the threshold. -/
theorem GitRepo.ListBranches.forEach_classified {σ : Type} (g : GitRepo σ) (w : σ) (thr : Time)
    (pats : List GoString) (refs : List Reference) :
    ∀ acc : List Branch, ∀ b ∈ (GitRepo.ListBranches.forEach g w thr pats refs acc).1,
      b ∈ acc ∨ ∃ ref ∈ refs, ∃ commit, g.repo.CommitObject w ref.Hash = .ok commit ∧
        b.Name = ref.Name ∧ b.LastCommit = commit.CommitterWhen ∧
        b.IsStale = decide (commit.CommitterWhen < thr) := by
  induction refs with
  | nil => intro acc b hb; left; simpa [GitRepo.ListBranches.forEach] using hb
  | cons r refs ih =>
    intro acc b hb
    by_cases hd : r.Name = g.defaultBranch
    · simp only [GitRepo.ListBranches.forEach, hd, if_true] at hb
      rcases ih acc b hb with h | ⟨ref, href, h⟩
      · exact Or.inl h
      · exact Or.inr ⟨ref, List.mem_cons_of_mem _ href, h⟩
    · cases hc : g.repo.CommitObject w r.Hash with
      | error e =>
        left
        simpa [GitRepo.ListBranches.forEach, hd, hc] using hb
      | ok commit =>
        rcases hm : g.isMerged w r.Name with ⟨merged, _ | e⟩
        · simp only [GitRepo.ListBranches.forEach, hd, hc, hm, if_false] at hb
          rcases ih _ b hb with h | ⟨ref, href, h⟩
          · rcases List.mem_append.mp h with h | h
            · exact Or.inl h
            · right
              rw [List.mem_singleton] at h
              subst h
              exact ⟨r, List.mem_cons_self _ _, commit, hc, rfl, rfl, rfl⟩
          · exact Or.inr ⟨ref, List.mem_cons_of_mem _ href, h⟩
        · left
          simpa [GitRepo.ListBranches.forEach, hd, hc, hm] using hb

/-- Every branch returned by `ListBranches` classifies a branch reference
whose tip commit was read: `LastCommit` is the committer timestamp of that
commit, and `IsStale` is true if and only if that timestamp is strictly
before the value of `time.Now().AddDate(0, 0, -staleDays)`, whatever that
value is; a commit exactly at that instant is not stale. -/
theorem ListBranches_stale_iff {σ : Type} (g : GitRepo σ) (w : σ) (staleDays : Int)
    (pats : List GoString) :
    ∀ b ∈ (g.ListBranches w staleDays pats).1, ∃ refs ref commit,
      g.repo.Branches w = .ok refs ∧ ref ∈ refs ∧
      g.repo.CommitObject w ref.Hash = .ok commit ∧ b.Name = ref.Name ∧
      b.LastCommit = commit.CommitterWhen ∧
      (b.IsStale = true ↔
        commit.CommitterWhen < g.repo.AddDate (g.repo.Now w) 0 0 (-staleDays)) ∧
      (commit.CommitterWhen = g.repo.AddDate (g.repo.Now w) 0 0 (-staleDays) →
        b.IsStale = false) := by
  intro b hb
  unfold GitRepo.ListBranches at hb
  cases hbr : g.repo.Branches w with
  | error e => simp [hbr] at hb
  | ok refs =>
    simp only [hbr] at hb
    rcases GitRepo.ListBranches.forEach_classified g w _ pats refs [] b hb with h | h
    · cases h
    · obtain ⟨ref, href, commit, hc, hn, hl, hs⟩ := h
      refine ⟨refs, ref, commit, rfl, href, hc, hn, hl, ?_, ?_⟩
      · rw [hs]; simp
      · intro heq
        rw [hs, heq]
        simp

/-- An instance of `ListBranches_stale_iff`: with 30 stale days on day 100
of the example repository, the branch `edge` committed on day 70, the
threshold itself, is listed as not stale. -/
theorem ListBranches_stale_iff_witness :
    ∃ refs ref commit,
      (exampleGit (str "main") false).repo.Branches
        [⟨str "main", 99⟩, ⟨str "feature-a", 60⟩, ⟨str "edge", 70⟩] = .ok refs ∧ ref ∈ refs ∧
      (exampleGit (str "main") false).repo.CommitObject
        [⟨str "main", 99⟩, ⟨str "feature-a", 60⟩, ⟨str "edge", 70⟩] ref.Hash = .ok commit ∧
      (⟨str "edge", false, false, 70, false⟩ : Branch).Name = ref.Name ∧
      (⟨str "edge", false, false, 70, false⟩ : Branch).LastCommit = commit.CommitterWhen ∧
      ((⟨str "edge", false, false, 70, false⟩ : Branch).IsStale = true ↔
        commit.CommitterWhen < (exampleGit (str "main") false).repo.AddDate
          ((exampleGit (str "main") false).repo.Now
            [⟨str "main", 99⟩, ⟨str "feature-a", 60⟩, ⟨str "edge", 70⟩]) 0 0 (-30)) ∧
      (commit.CommitterWhen = (exampleGit (str "main") false).repo.AddDate
          ((exampleGit (str "main") false).repo.Now
            [⟨str "main", 99⟩, ⟨str "feature-a", 60⟩, ⟨str "edge", 70⟩]) 0 0 (-30) →
        (⟨str "edge", false, false, 70, false⟩ : Branch).IsStale = false) :=
  ListBranches_stale_iff (exampleGit (str "main") false)
    [⟨str "main", 99⟩, ⟨str "feature-a", 60⟩, ⟨str "edge", 70⟩] 30 []
    ⟨str "edge", false, false, 70, false⟩ (by decide)

theorem wrapInt64_of_range (x : Int) (hlo : -9223372036854775808 ≤ x)
    (hhi : x < 9223372036854775808) : wrapInt64 x = x := by
  unfold wrapInt64
  omega

/-- While the seconds stay in the range of `int64`, `AddDate(0, 0, days)` in
UTC moves a time by `days` times 24 hours. -/
theorem AddDateDays_of_range (t : Time) (days : Int)
    (hlo : -9223372036854775808 ≤ t / 1000000000 + days * 86400)
    (hhi : t / 1000000000 + days * 86400 < 9223372036854775808) :
    AddDateDays t days = t + days * 86400 * 1000000000 := by
  unfold AddDateDays
  rw [wrapInt64_of_range _ hlo hhi]
  have h := Int.ediv_add_emod t 1000000000
  show ((t / 1000000000 + days * 86400) * 1000000000 + t % 1000000000 : Int)
    = t + days * 86400 * 1000000000
  linarith

/-- Where C15 holds: on the clock of the Go standard library in UTC, and for
a number of stale days that keeps the seconds of the threshold in the range
of `int64`, `IsStale` is true if and only if the committer timestamp of the
branch tip is strictly before now minus `staleDays` days of 24 hours; a
commit exactly at that instant is not stale, and `LastCommit` is that
timestamp. -/
theorem ListBranches_stale_in_range {σ : Type} (g : GitRepo σ) (w : σ) (staleDays : Int)
    (pats : List GoString)
    (hadd : ∀ t days, g.repo.AddDate t 0 0 days = AddDateDays t days)
    (hlo : -9223372036854775808 ≤ g.repo.Now w / 1000000000 + -staleDays * 86400)
    (hhi : g.repo.Now w / 1000000000 + -staleDays * 86400 < 9223372036854775808) :
    ∀ b ∈ (g.ListBranches w staleDays pats).1, ∃ refs ref commit,
      g.repo.Branches w = .ok refs ∧ ref ∈ refs ∧
      g.repo.CommitObject w ref.Hash = .ok commit ∧ b.Name = ref.Name ∧
      b.LastCommit = commit.CommitterWhen ∧
      (b.IsStale = true ↔
        commit.CommitterWhen < g.repo.Now w - staleDays * 86400 * 1000000000) ∧
      (commit.CommitterWhen = g.repo.Now w - staleDays * 86400 * 1000000000 →
        b.IsStale = false) := by
  intro b hb
  obtain ⟨refs, ref, commit, h1, h2, h3, h4, h5, h6, h7⟩ :=
    ListBranches_stale_iff g w staleDays pats b hb
  have hthr : g.repo.AddDate (g.repo.Now w) 0 0 (-staleDays)
      = g.repo.Now w - staleDays * 86400 * 1000000000 := by
    rw [hadd, AddDateDays_of_range _ _ hlo hhi]
    ring
  rw [hthr] at h6 h7
  exact ⟨refs, ref, commit, h1, h2, h3, h4, h5, h6, h7⟩

/-- The failing input of C15: `--stale-days 9223372036854775807`, which
`validateFlags` accepts, on a repository whose branch `feature-b` was
committed one hour ago.  The seconds of the threshold wrap around in 64-bit
arithmetic, so that `time.Now().AddDate(0, 0, -staleDays)` is one day after
now, and `ListBranches` lists `feature-b` as stale, although its commit is
not before now minus `staleDays` days.  With 30 stale days the same branch is
listed as not stale. -/
theorem ListBranches_stale_overflow :
    validateFlags { exampleFlags false false with staleDays := maxInt } = none ∧
    AddDateDays clockNow (-maxInt) = clockNow + 86400 * 1000000000 ∧
    clockGit.ListBranches [⟨str "main", 0⟩, ⟨str "feature-b", 3600⟩] maxInt [] =
      ([⟨str "feature-b", false, true, clockNow - 3600 * 1000000000, false⟩], none) ∧
    ¬ (clockNow - 3600 * 1000000000 < clockNow - maxInt * 86400 * 1000000000) ∧
    clockGit.ListBranches [⟨str "main", 0⟩, ⟨str "feature-b", 3600⟩] 30 [] =
      ([⟨str "feature-b", false, false, clockNow - 3600 * 1000000000, false⟩], none) := by
  decide

/-! ## Interactive selection: lemmas -/

theorem SelectBranches.loop_toggles (n : Nat) (rest : List PromptResult) (ts : List Nat) :
    ∀ m : Nat → Bool, (∀ t ∈ ts, t ≠ n) →
      ∃ m1 : Nat → Bool,
        SelectBranches.loop n (ts.map PromptResult.index ++ PromptResult.index n :: rest) m
          = SelectOutcome.confirmed m1 ∧
        ∀ i, m1 i = xor (m i) (decide (ts.count i % 2 = 1)) := by
  induction ts with
  | nil => intro m _; exact ⟨m, by simp [SelectBranches.loop], by simp⟩
  | cons t ts ih =>
    intro m hts
    have ht : t ≠ n := hts t (List.mem_cons_self _ _)
    obtain ⟨m1, hloop, hm1⟩ := ih (fun i => if i = t then !m t else m i)
      (fun u hu => hts u (List.mem_cons_of_mem _ hu))
    refine ⟨m1, ?_, ?_⟩
    · simpa [SelectBranches.loop, ht] using hloop
    · intro i
      rw [hm1 i, List.count_cons]
      by_cases hit : i = t
      · subst hit
        have hpar : decide ((List.count i ts + 1) % 2 = 1) = !decide (List.count i ts % 2 = 1) := by
          by_cases hc : List.count i ts % 2 = 1
          · have : ¬ (List.count i ts + 1) % 2 = 1 := by omega
            simp [hc, this]
          · have : (List.count i ts + 1) % 2 = 1 := by omega
            simp [hc, this]
        simp only [if_true, beq_self_eq_true, hpar]
        cases m i <;> cases decide (List.count i ts % 2 = 1) <;> rfl
      · have hti : (t == i) = false := by
          simpa using fun h : t = i => hit h.symm
        simp [hit, hti]

theorem SelectBranches.loop_interrupt (n : Nat) (rest : List PromptResult) (ts : List Nat) :
    ∀ m : Nat → Bool, (∀ t ∈ ts, t ≠ n) →
      SelectBranches.loop n (ts.map PromptResult.index ++ PromptResult.interrupt :: rest) m
        = SelectOutcome.returned GoError.ErrCancelled := by
  induction ts with
  | nil => intro m _; simp [SelectBranches.loop]
  | cons t ts ih =>
    intro m hts
    have ht : t ≠ n := hts t (List.mem_cons_self _ _)
    simpa [SelectBranches.loop, ht] using
      ih (fun i => if i = t then !m t else m i) (fun u hu => hts u (List.mem_cons_of_mem _ hu))

theorem SelectBranches.build_eq (m : Nat → Bool) (bs : List Branch) :
    ∀ (i : Nat) (acc : List Branch),
      SelectBranches.build m i bs acc
        = acc ++ ((bs.enumFrom i).filter (fun p => m p.1)).map Prod.snd := by
  induction bs with
  | nil => intro i acc; simp [SelectBranches.build]
  | cons b bs ih =>
    intro i acc
    rw [SelectBranches.build, ih]
    by_cases hm : m i = true
    · simp [List.enumFrom_cons, List.filter_cons, hm]
    · simp [List.enumFrom_cons, List.filter_cons, hm]

/-! ## Interactive selection: claims -/

/-- C14: after the toggle choices `toggles` (indices below the length of the
list) and the confirm entry, `SelectBranches` returns, with a nil error, the
branches whose index was toggled an odd number of times, in the order of the
input list; and on the empty list it returns the empty result and a nil error
whatever the prompt would answer, without asking it. -/
theorem SelectBranches_toggles (branches : List Branch) (toggles : List Nat)
    (rest : List PromptResult) (htog : ∀ i ∈ toggles, i < branches.length) :
    SelectBranches branches
        (toggles.map PromptResult.index ++ PromptResult.index branches.length :: rest)
      = some ((branches.enum.filter (fun p => toggles.count p.1 % 2 = 1)).map Prod.snd, none) ∧
    (∀ answers, SelectBranches [] answers = some ([], none)) := by
  refine ⟨?_, fun answers => by simp [SelectBranches]⟩
  unfold SelectBranches
  by_cases hlen : branches.length = 0
  · have : branches = [] := List.length_eq_zero.mp hlen
    subst this
    simp
  · rw [if_neg hlen]
    obtain ⟨m1, hloop, hm1⟩ := SelectBranches.loop_toggles branches.length rest toggles
      (fun _ => false) (fun t ht => Nat.ne_of_lt (htog t ht))
    rw [hloop]
    simp only [SelectBranches.build_eq, List.nil_append, List.enum]
    congr 3
    apply List.filter_congr
    intro p _
    rw [hm1 p.1]
    simp

/-- Witness for C14: index 2 is toggled twice, indices 0 and 1 once, in the
order 2, 0, 2, 1; the result is the first two branches in input order. -/
theorem SelectBranches_toggles_witness :
    SelectBranches
        [⟨str "a", true, false, 0, false⟩, ⟨str "b", true, false, 0, false⟩,
         ⟨str "c", true, false, 0, false⟩]
        [.index 2, .index 0, .index 2, .index 1, .index 3]
      = some ([⟨str "a", true, false, 0, false⟩, ⟨str "b", true, false, 0, false⟩], none) :=
  (SelectBranches_toggles
    [⟨str "a", true, false, 0, false⟩, ⟨str "b", true, false, 0, false⟩,
     ⟨str "c", true, false, 0, false⟩] [2, 0, 2, 1] [] (by decide)).1.trans (by decide)

/-! ## The command: lemmas -/

section Command

variable {σ : Type}

/-- What `runCleanup` does once the flags are valid, the repository is open
and its branches are listed. -/
theorem runCleanup_after_listing (flags : Flags) (s : Session σ) (repoPath : GoString)
    (git : GitRepo σ) (branches : List Branch)
    (hflags : validateFlags flags = none) (hwd : s.Getwd = .ok repoPath)
    (hgit : validateGitRepo s repoPath = none) (hrepo : s.NewGitRepo repoPath = .ok git)
    (hlist : git.ListBranches s.world flags.staleDays flags.protectedPatterns
      = (branches, none)) :
    runCleanup flags s =
      if (FilterBranches branches flags.mergedOnly flags.staleOnly).length = 0 then
        some { world := s.world, calls := [], out := [Message.noBranches], err := none }
      else
        match SelectBranches (FilterBranches branches flags.mergedOnly flags.staleOnly)
          s.answers with
        | none => none
        | some (_, some err) =>
          some (runCleanup.fail s (.Errorf "branch selection failed: %w" err []))
        | some (selected, none) =>
          if selected.length = 0 then
            some { world := s.world, calls := [], out := [Message.noneSelected], err := none }
          else if (!flags.force && !flags.assumeYes) &&
              !(ConfirmDeletion s selected flags.dryRun).2 then
            some { world := s.world
                   calls := []
                   out := (if (!flags.force && !flags.assumeYes) = true then
                     (ConfirmDeletion s selected flags.dryRun).1 else []) ++ [Message.cancelled]
                   err := none }
          else if flags.dryRun then
            some { world := s.world
                   calls := []
                   out := (if (!flags.force && !flags.assumeYes) = true then
                     (ConfirmDeletion s selected flags.dryRun).1 else []) ++
                     [Message.dryRunHeader] ++
                     selected.map (fun b => Message.dryRunItem b.Name flags.deleteRemote)
                   err := none }
          else
            some { world := (runCleanup.deleteSelected git flags.verbose flags.deleteRemote
                     s.world selected).world
                   calls := (runCleanup.deleteSelected git flags.verbose flags.deleteRemote
                     s.world selected).calls
                   out := (if (!flags.force && !flags.assumeYes) = true then
                     (ConfirmDeletion s selected flags.dryRun).1 else []) ++
                     (runCleanup.deleteSelected git flags.verbose flags.deleteRemote
                       s.world selected).out.map Message.line
                   err := (runCleanup.deleteSelected git flags.verbose flags.deleteRemote
                     s.world selected).err } := by
  unfold runCleanup
  simp only [hflags, hwd, hgit, hrepo, hlist]

/-- With `--dry-run`, a run of `runCleanup` that returns has called neither
`DeleteBranch` nor `DeleteRemoteBranch` and has left the world as it was. -/
theorem runCleanup_dry_run_no_call (flags : Flags) (s : Session σ)
    (hdry : flags.dryRun = true) (r : CleanupResult σ) (hr : runCleanup flags s = some r) :
    r.calls = [] ∧ r.world = s.world := by
  cases hflags : validateFlags flags with
  | some err =>
    simp only [runCleanup, hflags, Option.some.injEq] at hr
    subst hr; exact ⟨rfl, rfl⟩
  | none =>
  cases hwd : s.Getwd with
  | error err =>
    simp only [runCleanup, hflags, hwd, Option.some.injEq] at hr
    subst hr; exact ⟨rfl, rfl⟩
  | ok repoPath =>
  cases hgit : validateGitRepo s repoPath with
  | some err =>
    simp only [runCleanup, hflags, hwd, hgit, Option.some.injEq] at hr
    subst hr; exact ⟨rfl, rfl⟩
  | none =>
  cases hrepo : s.NewGitRepo repoPath with
  | error err =>
    simp only [runCleanup, hflags, hwd, hgit, hrepo, Option.some.injEq] at hr
    subst hr; exact ⟨rfl, rfl⟩
  | ok git =>
  rcases hlist : git.ListBranches s.world flags.staleDays flags.protectedPatterns with
    ⟨branches, _ | err⟩
  · rw [runCleanup_after_listing flags s repoPath git branches hflags hwd hgit hrepo hlist] at hr
    by_cases h0 : (FilterBranches branches flags.mergedOnly flags.staleOnly).length = 0
    · rw [if_pos h0] at hr
      simp only [Option.some.injEq] at hr
      subst hr; exact ⟨rfl, rfl⟩
    · rw [if_neg h0] at hr
      split at hr
      · cases hr
      · simp only [Option.some.injEq] at hr
        subst hr; exact ⟨rfl, rfl⟩
      · simp only [hdry, if_true] at hr
        split_ifs at hr <;>
          (simp only [Option.some.injEq] at hr; subst hr; exact ⟨rfl, rfl⟩)
  · simp only [runCleanup, hflags, hwd, hgit, hrepo, hlist, Option.some.injEq] at hr
    subst hr; exact ⟨rfl, rfl⟩

/-- The error that the deletion part of `runCleanup` returns is nil or the
text-only error `some branches failed to delete`, so that `main` never turns
it into `exitProtectedBranch`, whatever the calls of `DeleteBranch`
returned. -/
theorem deleteSelected_exit_status (git : GitRepo σ) (verbose deleteRemote : Bool) (w : σ)
    (selected : List Branch) :
    main.exitStatus (runCleanup.deleteSelected git verbose deleteRemote w selected).err
      ≠ exitProtectedBranch := by
  obtain ⟨outs, _, _, _, h3, _⟩ :=
    runCleanup.deleteSelected_spec git verbose deleteRemote w selected
  rw [h3]
  split_ifs <;> decide

end Command

/-! ## The command: claims -/

/-- C11: with `--dry-run`, a run of `runCleanup` that returns has called
neither `DeleteBranch` nor `DeleteRemoteBranch` and has left the world (so the
branch references) as it was; and once a selection `selected` is made, it
returns a nil error, whatever `--remote`, `--force` and `--yes` are and
whether the confirmation prompt is accepted, declined or skipped. -/
theorem runCleanup_dry_run {σ : Type} (flags : Flags) (s : Session σ)
    (hdry : flags.dryRun = true) :
    (∀ r, runCleanup flags s = some r → r.calls = [] ∧ r.world = s.world) ∧
    (∀ repoPath git branches selected,
      validateFlags flags = none → s.Getwd = .ok repoPath →
      validateGitRepo s repoPath = none → s.NewGitRepo repoPath = .ok git →
      git.ListBranches s.world flags.staleDays flags.protectedPatterns = (branches, none) →
      SelectBranches (FilterBranches branches flags.mergedOnly flags.staleOnly) s.answers
        = some (selected, none) →
      ∃ r, runCleanup flags s = some r ∧ r.calls = [] ∧ r.world = s.world ∧ r.err = none ∧
        main flags s = some exitSuccess) := by
  refine ⟨fun r hr => runCleanup_dry_run_no_call flags s hdry r hr, ?_⟩
  intro repoPath git branches selected hflags hwd hgit hrepo hlist hsel
  have hrun := runCleanup_after_listing flags s repoPath git branches hflags hwd hgit hrepo hlist
  rw [hsel] at hrun
  simp only [hdry, if_true] at hrun
  unfold main
  rw [hrun]
  by_cases h0 : (FilterBranches branches flags.mergedOnly flags.staleOnly).length = 0
  · rw [if_pos h0]
    exact ⟨_, rfl, rfl, rfl, rfl, rfl⟩
  · rw [if_neg h0]
    split_ifs <;> exact ⟨_, rfl, rfl, rfl, rfl, rfl⟩

/-- Witness for C11: a dry run with `--remote` in the example repository, in
which `feature-a` is selected. -/
theorem runCleanup_dry_run_witness :
    ∃ r, runCleanup (exampleFlags true true)
        (exampleSession (str "main") [.index 0, .index 1]) = some r ∧
      r.calls = [] ∧
      r.world = (exampleSession (str "main") [.index 0, .index 1]).world ∧
      r.err = none ∧
      main (exampleFlags true true) (exampleSession (str "main") [.index 0, .index 1])
        = some exitSuccess :=
  (runCleanup_dry_run (exampleFlags true true)
    (exampleSession (str "main") [.index 0, .index 1]) rfl).2
    (str "/repo") (exampleGit (str "main") false)
    [⟨str "feature-a", true, true, 60, false⟩, ⟨str "feature-b", false, false, 95, false⟩,
     ⟨str "release/1.0", false, true, 10, true⟩]
    [⟨str "feature-a", true, true, 60, false⟩]
    (by decide) rfl (by decide) rfl (by decide) (by decide)

/-- The failing input of C12: HEAD is on `feature-a`, which is selected and
confirmed in a run without `--dry-run`.  `DeleteBranch` returns an error that
wraps `ErrCurrentBranch`; `runCleanup` returns the text-only error `some
branches failed to delete`, and `main` exits with `exitError`, not with
`exitProtectedBranch`. -/
theorem main_guarded_deletion_exit_status :
    (runCleanup (exampleFlags false false)
        (exampleSession (str "feature-a") [.index 0, .index 1])).map CleanupResult.calls
      = some [Call.DeleteBranch (str "feature-a")
          (some (.Errorf "%w: '%s'" .ErrCurrentBranch [str "feature-a"]))] ∧
    errorsIs (.Errorf "%w: '%s'" .ErrCurrentBranch [str "feature-a"]) .ErrCurrentBranch
      = true ∧
    (runCleanup (exampleFlags false false)
        (exampleSession (str "feature-a") [.index 0, .index 1])).map CleanupResult.err
      = some (some (.New "some branches failed to delete")) ∧
    main (exampleFlags false false) (exampleSession (str "feature-a") [.index 0, .index 1])
      = some exitError ∧
    exitError ≠ exitProtectedBranch := by
  decide

/-- The failing input of C13: in the example repository the user interrupts
the selection prompt.  `SelectBranches` returns the distinct `ErrCancelled` and
no branches, and nothing is deleted; but `runCleanup` returns that condition
as the failure `branch selection failed: %w`, with which `main` exits with
status 1, where C13 has a nil error and status 0.  The other ways of backing
out of the same run end as C13 says: a declined confirmation and a confirmed
empty selection both return nil, with status 0. -/
theorem runCleanup_interrupt_exit_status :
    SelectBranches [⟨str "feature-a", true, true, 60, false⟩] [.interrupt]
      = some ([], some .ErrCancelled) ∧
    (runCleanup (exampleFlags false false)
        (exampleSession (str "main") [.interrupt])).map CleanupResult.calls = some [] ∧
    (runCleanup (exampleFlags false false)
        (exampleSession (str "main") [.interrupt])).map CleanupResult.err
      = some (some (.Errorf "branch selection failed: %w" .ErrCancelled [])) ∧
    main (exampleFlags false false) (exampleSession (str "main") [.interrupt])
      = some exitError ∧
    exitError ≠ exitSuccess ∧
    main { exampleFlags false false with force := false }
        (exampleSession (str "main") [.index 0, .index 1]) = some exitSuccess ∧
    main (exampleFlags false false) (exampleSession (str "main") [.index 1])
      = some exitSuccess := by
  decide

/-- The defect of C13 on every input: on a non-empty candidate list, when
the user interrupts the selection prompt (after any toggles), `SelectBranches`
returns `ErrCancelled` and no branches; `runCleanup` then performs no
deletion and leaves the world as it was, but returns the error `branch
selection failed: %w` wrapping `ErrCancelled`, with which `main` exits with
the status `exitError`. -/
theorem runCleanup_interrupted {σ : Type} (flags : Flags) (s : Session σ)
    (repoPath : GoString) (git : GitRepo σ) (branches : List Branch) (toggles : List Nat)
    (rest : List PromptResult)
    (hflags : validateFlags flags = none) (hwd : s.Getwd = .ok repoPath)
    (hgit : validateGitRepo s repoPath = none) (hrepo : s.NewGitRepo repoPath = .ok git)
    (hlist : git.ListBranches s.world flags.staleDays flags.protectedPatterns
      = (branches, none))
    (hne : (FilterBranches branches flags.mergedOnly flags.staleOnly).length ≠ 0)
    (htog : ∀ i ∈ toggles,
      i < (FilterBranches branches flags.mergedOnly flags.staleOnly).length)
    (hans : s.answers = toggles.map PromptResult.index ++ PromptResult.interrupt :: rest) :
    SelectBranches (FilterBranches branches flags.mergedOnly flags.staleOnly) s.answers
      = some ([], some .ErrCancelled) ∧
    ∃ r, runCleanup flags s = some r ∧
      r.err = some (.Errorf "branch selection failed: %w" .ErrCancelled []) ∧
      errorsIs (.Errorf "branch selection failed: %w" .ErrCancelled []) .ErrCancelled = true ∧
      r.calls = [] ∧ r.world = s.world ∧
      main flags s = some exitError := by
  have hsel : SelectBranches (FilterBranches branches flags.mergedOnly flags.staleOnly)
      s.answers = some ([], some .ErrCancelled) := by
    unfold SelectBranches
    rw [if_neg hne, hans, SelectBranches.loop_interrupt _ rest toggles _
      (fun t ht => Nat.ne_of_lt (htog t ht))]
  refine ⟨hsel, ?_⟩
  have hrun := runCleanup_after_listing flags s repoPath git branches hflags hwd hgit hrepo hlist
  rw [hsel, if_neg hne] at hrun
  dsimp only at hrun
  have hexit : main.exitStatus (some (.Errorf "branch selection failed: %w" .ErrCancelled []))
      = exitError := by decide
  unfold main
  rw [hrun]
  exact ⟨_, rfl, rfl, by decide, rfl, rfl, by simp [runCleanup.fail, hexit]⟩

/-- An instance of `runCleanup_interrupted`: the user toggles `feature-a` and
then interrupts the prompt. -/
theorem runCleanup_interrupted_witness :
    SelectBranches (FilterBranches
        [⟨str "feature-a", true, true, 60, false⟩, ⟨str "feature-b", false, false, 95, false⟩,
         ⟨str "release/1.0", false, true, 10, true⟩] false false)
        (exampleSession (str "main") [.index 0, .interrupt]).answers
      = some ([], some .ErrCancelled) ∧
    ∃ r, runCleanup (exampleFlags false false)
        (exampleSession (str "main") [.index 0, .interrupt]) = some r ∧
      r.err = some (.Errorf "branch selection failed: %w" .ErrCancelled []) ∧
      errorsIs (.Errorf "branch selection failed: %w" .ErrCancelled []) .ErrCancelled = true ∧
      r.calls = [] ∧
      r.world = (exampleSession (str "main") [.index 0, .interrupt]).world ∧
      main (exampleFlags false false) (exampleSession (str "main") [.index 0, .interrupt])
        = some exitError :=
  runCleanup_interrupted (exampleFlags false false)
    (exampleSession (str "main") [.index 0, .interrupt]) (str "/repo")
    (exampleGit (str "main") false)
    [⟨str "feature-a", true, true, 60, false⟩, ⟨str "feature-b", false, false, 95, false⟩,
     ⟨str "release/1.0", false, true, 10, true⟩] [0] []
    (by decide) rfl (by decide) rfl (by decide) (by decide) (by decide) rfl

end BranchClean
